import Mathlib

/-!
# Verification of the spot-price service (`main.go`)

A shallow embedding of the `GET /` handler of `main.go` and of
`fetchPriceData`, followed by theorems about the price computation, the
tariff selection, the output order and the error behaviour.

* `float64` arithmetic is kept abstract: the handler is written over any
  type `F` carrying the operations the source uses (`Float64Ops`). Two
  instances are given: `float64Ops`, IEEE-754 binary64 with rounding to
  nearest, ties to even, which is what the program computes in, and
  `exactOps`, the exact rationals, for statements about exact arithmetic.
* The parts of Go's `time` package the handler calls (`Parse` with the layout
  `2006-01-02T15:04:05`, `Month`, `Hour`, `In`, `Format(time.RFC3339)`) are
  embedded as executable definitions.
* A `panic` is an `Except.error`.
-/

namespace Elpris

/-! ## `float64` operations used by the source -/

/-- The `float64` operations the handler performs: `+`, `*`, `/`, the
conversion of a decimal constant of the source text to `float64`, and
`fmt.Sprintf("%f", x)`. -/
structure Float64Ops (F : Type) where
  add : F → F → F
  mul : F → F → F
  div : F → F → F
  lit : ℚ → F
  sprintf : F → String

/-! ## The `time` package -/

/-- A `*time.Location`: `lookup sec` is the offset, in seconds east of UTC, in
force at the instant `sec` (seconds since the Unix epoch). -/
structure Location where
  name : String
  lookup : Int → Int

/-- The location `time.UTC`. -/
def UTC : Location := ⟨"UTC", fun _ => 0⟩

/-- A `time.Time` at whole-second resolution: an instant and the location it is
presented in. -/
structure Time where
  unixSec : Int
  loc : Location

def isLeap (year : Int) : Bool :=
  year % 4 == 0 && (year % 100 != 0 || year % 400 == 0)

/-- The number of days of month `m` (1..12) of `year`. -/
def daysIn (m year : Int) : Int :=
  if m == 2 then (if isLeap year then 29 else 28)
  else if m == 4 || m == 6 || m == 9 || m == 11 then 30
  else 31

/-- Days from 1970-01-01 to the given date of the proleptic Gregorian
calendar. -/
def daysFromCivil (year month day : Int) : Int :=
  let y := if month ≤ 2 then year - 1 else year
  let era := y / 400
  let yoe := y - era * 400
  let mp := if month > 2 then month - 3 else month + 9
  let doy := (153 * mp + 2) / 5 + day - 1
  let doe := yoe * 365 + yoe / 4 - yoe / 100 + doy
  era * 146097 + doe - 719468

/-- The date (year, month, day) that lies `days` days after 1970-01-01. -/
def civilFromDays (days : Int) : Int × Int × Int :=
  let z := days + 719468
  let era := z / 146097
  let doe := z - era * 146097
  let yoe := (doe - doe / 1460 + doe / 36524 - doe / 146096) / 365
  let y := yoe + era * 400
  let doy := doe - (365 * yoe + yoe / 4 - yoe / 100)
  let mp := (5 * doy + 2) / 153
  let d := doy - (153 * mp + 2) / 5 + 1
  let m := if mp < 10 then mp + 3 else mp - 9
  (if m ≤ 2 then y + 1 else y, m, d)

/-- The function `time.Date` for in-range fields and a fixed-offset-zero location
(the only way `Parse` calls it here). -/
def Date (year month day hour min sec : Int) (loc : Location) : Time :=
  ⟨daysFromCivil year month day * 86400 + hour * 3600 + min * 60 + sec, loc⟩

/-- Seconds since the epoch shifted by the offset of the time's location: the
clock reading in that location. -/
def Time.abs (t : Time) : Int := t.unixSec + t.loc.lookup t.unixSec

def Time.Year (t : Time) : Int := (civilFromDays (t.abs / 86400)).1
def Time.Month (t : Time) : Int := (civilFromDays (t.abs / 86400)).2.1
def Time.Day (t : Time) : Int := (civilFromDays (t.abs / 86400)).2.2
def Time.Hour (t : Time) : Int := t.abs % 86400 / 3600
def Time.Minute (t : Time) : Int := t.abs % 3600 / 60
def Time.Second (t : Time) : Int := t.abs % 60

/-- The method `t.In(l)`: the same instant, presented in `l`. -/
def Time.In (t : Time) (l : Location) : Time := ⟨t.unixSec, l⟩

def isDigitChar (c : Char) : Bool := '0' ≤ c && c ≤ '9'

def digitVal (c : Char) : Int := (c.toNat : Int) - 48

/-- One or two leading decimal digits (`fixed` forces two) and the rest of the
string. -/
def getnum : List Char → Bool → Option (Int × List Char)
  | c0 :: c1 :: rest, fixed =>
    if isDigitChar c0 then
      if isDigitChar c1 then some (digitVal c0 * 10 + digitVal c1, rest)
      else if fixed then none else some (digitVal c0, c1 :: rest)
    else none
  | [c0], fixed =>
    if isDigitChar c0 then (if fixed then none else some (digitVal c0, [])) else none
  | [], _ => none

/-- Consumes the literal text `lit` (which holds no space) from the front of
`value`. -/
def skip : List Char → List Char → Option (List Char)
  | value, [] => some value
  | [], _ :: _ => none
  | v :: value, p :: lit => if v == p then skip value lit else none

/-- The four-digit year field `2006`. -/
def getLongYear : List Char → Option (Int × List Char)
  | a :: b :: c :: d :: rest =>
    if isDigitChar a && isDigitChar b && isDigitChar c && isDigitChar d then
      some (digitVal a * 1000 + digitVal b * 100 + digitVal c * 10 + digitVal d, rest)
    else none
  | _ => none

/-- After the seconds field `Parse` accepts a fractional second the layout does
not mention: a period or comma followed by one or more digits. -/
def skipFraction : List Char → List Char
  | c :: d :: rest =>
    if (c == '.' || c == ',') && isDigitChar d then rest.dropWhile isDigitChar
    else c :: d :: rest
  | value => value

/-- The date and clock fields of a successfully parsed value. -/
structure Fields where
  year : Int
  month : Int
  day : Int
  hour : Int
  min : Int
  sec : Int
deriving DecidableEq, Repr

/-- The field-by-field scan of `time.Parse("2006-01-02T15:04:05", value)`,
with its range checks; `none` is a parse error. -/
def parseFields (value : String) : Option Fields :=
  match getLongYear value.toList with
  | none => none
  | some (year, v) =>
  match (skip v ['-']).bind (getnum · true) with
  | none => none
  | some (month, v) =>
  if month ≤ 0 || 12 < month then none else
  match (skip v ['-']).bind (getnum · true) with
  | none => none
  | some (day, v) =>
  match (skip v ['T']).bind (getnum · false) with
  | none => none
  | some (hour, v) =>
  if hour < 0 || 24 ≤ hour then none else
  match (skip v [':']).bind (getnum · true) with
  | none => none
  | some (min, v) =>
  if min < 0 || 60 ≤ min then none else
  match (skip v [':']).bind (getnum · true) with
  | none => none
  | some (sec, v) =>
  if sec < 0 || 60 ≤ sec then none else
  if !(skipFraction v).isEmpty then none else
  if day < 1 || day > daysIn month year then none else
  some ⟨year, month, day, hour, min, sec⟩

/-- The call `time.Parse("2006-01-02T15:04:05", value)`: the layout carries no zone, so
the result is in UTC. -/
def timeParse (value : String) : Option Time :=
  (parseFields value).map fun f => Date f.year f.month f.day f.hour f.min f.sec UTC

/-- The decimal digits of `x`, zero-padded on the left to `width`, with a
leading minus sign when `x` is negative. -/
def appendInt (x : Int) (width : Nat) : List Char :=
  let ds := Nat.toDigits 10 x.natAbs
  (if x < 0 then ['-'] else []) ++ List.replicate (width - ds.length) '0' ++ ds

/-- The `Z07:00` element of a layout: `Z` for offset zero, otherwise sign, hours
and minutes of the offset. -/
def appendZone (offset : Int) : List Char :=
  if offset == 0 then ['Z']
  else
    let zone := Int.tdiv offset 60
    (if zone < 0 then ['-'] else ['+'])
      ++ appendInt (Int.tdiv zone.natAbs 60) 2 ++ [':'] ++ appendInt (Int.tmod zone.natAbs 60) 2

/-- The method `t.Format(time.RFC3339)`, layout `2006-01-02T15:04:05Z07:00`. -/
def Time.Format (t : Time) : String :=
  String.mk (appendInt t.Year 4 ++ ['-'] ++ appendInt t.Month 2 ++ ['-'] ++ appendInt t.Day 2
    ++ ['T'] ++ appendInt t.Hour 2 ++ [':'] ++ appendInt t.Minute 2 ++ [':']
    ++ appendInt t.Second 2 ++ appendZone (t.loc.lookup t.unixSec))

/-- Day of the week of the day `days` days after 1970-01-01 (a Thursday);
Sunday is 0. -/
def weekday (days : Int) : Int := (days + 4) % 7

/-- Days from 1970-01-01 to the last Sunday of a 31-day month. -/
def lastSunday (year month : Int) : Int :=
  let last := daysFromCivil year month 31
  last - weekday last

/-- Days from 1970-01-01 to the last Sunday of a month of any length. -/
def lastSundayOf (year month : Int) : Int :=
  let last := daysFromCivil year month (daysIn month year)
  last - weekday last

/-- Seconds from the epoch to a date and clock time of UTC. -/
def utcSec (year month day hour min sec : Int) : Int :=
  daysFromCivil year month day * 86400 + hour * 3600 + min * 60 + sec

/-- The summer-time periods of Denmark before 1980, each from its first instant
to the instant it ends, in seconds of UTC: 1916, and 1940 to 1948. -/
def copenhagenSummerTimeBefore1980 : List (Int × Int) :=
  [(utcSec 1916 5 14 22 0 0, utcSec 1916 9 30 21 0 0),
    (utcSec 1940 5 14 23 0 0, utcSec 1942 11 2 1 0 0),
    (utcSec 1943 3 29 1 0 0, utcSec 1943 10 4 1 0 0),
    (utcSec 1944 4 3 1 0 0, utcSec 1944 10 2 1 0 0),
    (utcSec 1945 4 2 1 0 0, utcSec 1945 8 15 1 0 0),
    (utcSec 1946 5 1 1 0 0, utcSec 1946 9 1 1 0 0),
    (utcSec 1947 5 4 1 0 0, utcSec 1947 8 10 1 0 0),
    (utcSec 1948 5 9 1 0 0, utcSec 1948 8 8 1 0 0)]

/-- The location `time.LoadLocation("Europe/Copenhagen")` returns, by the entry the
zone database has for it: local mean time +00:50:20 until the end of 1893, then
+01:00 with the summer time (+02:00) of 1916 and 1940-1948, and since 1980 with
the summer time of the European rules, from 01:00 UTC on the last Sunday of
March (in 1980 on 6 April) until 01:00 UTC on the last Sunday of September (to
1995) or of October (since 1996). -/
def europeCopenhagen : Location :=
  ⟨"Europe/Copenhagen", fun sec =>
    if sec < utcSec 1893 12 31 23 9 40 then 3020
    else if sec < utcSec 1980 1 1 0 0 0 then
      (if copenhagenSummerTimeBefore1980.any (fun p => decide (p.1 ≤ sec ∧ sec < p.2))
        then 7200 else 3600)
    else
      let year := (civilFromDays (sec / 86400)).1
      let dstStart :=
        if year = 1980 then utcSec 1980 4 6 1 0 0 else lastSunday year 3 * 86400 + 3600
      let dstEnd :=
        if year < 1996 then lastSundayOf year 9 * 86400 + 3600
        else lastSunday year 10 * 86400 + 3600
      if dstStart ≤ sec ∧ sec < dstEnd then 7200 else 3600⟩

/-! ## Data model of `main.go` -/

structure FrontendHourlyPrice where
  StarTime : String
  Price : String
deriving DecidableEq, Repr

structure FrontendResponse where
  SpotPrices : List FrontendHourlyPrice
deriving DecidableEq, Repr

structure HourlyPrice (F : Type) where
  HourUTC : String
  HourDK : String
  PriceArea : String
  SpotPriceDKK : F
  SpotPriceEUR : F

structure PriceDataResponse (F : Type) where
  Total : Int
  Filters : String
  Limit : Int
  Dataset : String
  Records : List (HourlyPrice F)

/-- The ways the handler can panic. -/
inductive Panic where
  | parseError (value : String)
  | indexOutOfRange (i len : Nat)
deriving DecidableEq, Repr

/-! ## The `GET /` handler -/

section Handler

variable {F : Type}

/-- Slice indexing `s[i]`, which panics when `i` is out of range. -/
def index (s : List F) (i : Nat) : Except Panic F :=
  match s[i]? with
  | some x => .ok x
  | none => .error (.indexOutOfRange i s.length)

/-- Line 52: the winter rates (low, high, peak). -/
def winterTariffs (A : Float64Ops F) : List F := [A.lit 0.1126, A.lit 0.3378, A.lit 1.0133]

/-- Line 53: the summer rates (low, high, peak). -/
def summerTariffs (A : Float64Ops F) : List F := [A.lit 0.1126, A.lit 0.1689, A.lit 0.4391]

/-- Lines 58-63: the value of `tariffs` for a given `currentMonth`. -/
def selectTariffs (A : Float64Ops F) (currentMonth : Int) : List F :=
  if currentMonth ≥ 4 ∧ currentMonth ≤ 9 then summerTariffs A else winterTariffs A

/-- Lines 39-82: the value of `pricePrKwh` after the VAT multiplication, for the
parsed time `d` of the record `hour`. -/
def computePrice (A : Float64Ops F) (d : Time) (hour : HourlyPrice F) : Except Panic F := do
  let mut pricePrKwh := A.div hour.SpotPriceDKK (A.lit 1000)
  let stateTariff := A.lit 0.7610
  pricePrKwh := A.add pricePrKwh stateTariff
  let ewiiFees := A.lit 0.0975
  pricePrKwh := A.add pricePrKwh ewiiFees
  let currentMonth := d.Month
  let tariffs := selectTariffs A currentMonth
  let currentHour := d.Hour
  if currentHour ≥ 0 ∧ currentHour < 6 then
    pricePrKwh := A.add pricePrKwh (← index tariffs 0)
  if currentHour ≥ 6 ∧ currentHour < 17 then
    pricePrKwh := A.add pricePrKwh (← index tariffs 1)
  if currentHour ≥ 17 ∧ currentHour < 21 then
    pricePrKwh := A.add pricePrKwh (← index tariffs 2)
  if currentHour ≥ 21 ∧ currentHour ≤ 24 then
    pricePrKwh := A.add pricePrKwh (← index tariffs 1)
  pricePrKwh := A.mul pricePrKwh (A.lit 1.25)
  return pricePrKwh

/-- Lines 33-84: one iteration of the loop, giving the entry appended to
`frontendPrices`, or the panic that ends the handler. -/
def transformRecord (A : Float64Ops F) (l : Location) (hour : HourlyPrice F) :
    Except Panic FrontendHourlyPrice :=
  match timeParse hour.HourUTC with
  | none => .error (.parseError hour.HourUTC)
  | some d => do
    let pricePrKwh ← computePrice A d hour
    return ⟨(d.In l).Format, A.sprintf pricePrKwh⟩

/-- Lines 32-85: the loop over `prices`, appending to `frontendPrices`. -/
def loop (A : Float64Ops F) (l : Location) :
    List (HourlyPrice F) → List FrontendHourlyPrice → Except Panic (List FrontendHourlyPrice)
  | [], frontendPrices => .ok frontendPrices
  | hour :: rest, frontendPrices =>
    match transformRecord A l hour with
    | .error e => .error e
    | .ok entry => loop A l rest (frontendPrices ++ [entry])

/-- Lines 28-90: the handler on the records `prices` that `fetchPriceData`
returned, with `l` the location that `time.LoadLocation` returned. The result is
the value handed to the JSON encoder; a panic leaves the handler before
anything is written to the response. -/
def handler (A : Float64Ops F) (l : Location) (prices : List (HourlyPrice F)) :
    Except Panic FrontendResponse :=
  match loop A l prices [] with
  | .error e => .error e
  | .ok frontendPrices => .ok ⟨frontendPrices.reverse⟩

end Handler

/-! ## `fetchPriceData` -/

/-- What a call of `fetchPriceData` ends in: `log.Fatalln`, or a return to the
caller with a record list. -/
inductive FetchOutcome (F : Type) where
  | fatal (err : String)
  | returned (records : List (HourlyPrice F))

/-- Lines 119-136. `httpGet` is the result of `http.Get` followed by
`ioutil.ReadAll` (the error of either, or the body), and `jsonUnmarshal data v` is
`json.Unmarshal(data, &v)`: the error it returns, if any, and the contents of
`v` afterwards. -/
def fetchPriceData {F : Type} (httpGet : Except String (Except String String))
    (jsonUnmarshal : String → PriceDataResponse F → Option String × PriceDataResponse F) :
    FetchOutcome F :=
  match httpGet with
  | .error err => .fatal err
  | .ok resp =>
    match resp with
    | .error err => .fatal err
    | .ok body =>
      let sb := body
      let priceDataResponse : PriceDataResponse F := ⟨0, "", 0, "", []⟩
      let priceDataResponse := (jsonUnmarshal sb priceDataResponse).2
      .returned priceDataResponse.Records

/-! ## Exact arithmetic -/

/-- Rounding to the nearest integer, ties to even. -/
def roundHalfEven (q : ℚ) : Int :=
  let f := Rat.floor q
  let r := q - f
  if r < 1 / 2 then f else if 1 / 2 < r then f + 1 else if f % 2 == 0 then f else f + 1

/-- The verb `%f` on an exact value: sign, integer digits, a point and six
fractional digits. -/
def sprintfExact (q : ℚ) : String :=
  let n := (roundHalfEven (|q| * 1000000)).natAbs
  let ds := Nat.toDigits 10 (n % 1000000)
  String.mk ((if q < 0 then ['-'] else []) ++ Nat.toDigits 10 (n / 1000000) ++ ['.']
    ++ List.replicate (6 - ds.length) '0' ++ ds)

/-- The operations in exact rational arithmetic. -/
def exactOps : Float64Ops ℚ := ⟨(· + ·), (· * ·), (· / ·), id, sprintfExact⟩

/-! ## IEEE-754 binary64 arithmetic -/

/-- A `float64`: a finite value given by its sign bit and its magnitude (a
non-negative rational), an infinity, or a NaN. -/
inductive Float64 where
  | finite (neg : Bool) (mag : ℚ)
  | inf (neg : Bool)
  | nan
deriving DecidableEq, Repr

/-- The number a finite `float64` denotes. -/
def Float64.val : Float64 → ℚ
  | .finite neg mag => if neg then -mag else mag
  | _ => 0

/-- A finite `float64`: its magnitude is non-negative and below `2^1024`. -/
def Float64.IsFinite (x : Float64) : Prop :=
  ∃ neg mag, x = .finite neg mag ∧ 0 ≤ mag ∧ mag < 2 ^ (1024 : Int)

/-- The floor of the binary logarithm of `n`, for `n` at most `fuel`; 0 for 0. -/
def log2Fuel : Nat → Nat → Nat
  | 0, _ => 0
  | fuel + 1, n => if n < 2 then 0 else log2Fuel fuel (n / 2) + 1

/-- The floor of the binary logarithm of a natural number; 0 for 0. -/
def natLog2 (n : Nat) : Nat := log2Fuel n n

/-- The floor of the binary logarithm of a positive rational: the exponent of the
binade `[2^e, 2^(e+1))` the number lies in. -/
def floorLog2 (a : ℚ) : Int :=
  if 1 ≤ a then (natLog2 ⌊a⌋₊ : Int)
  else if ⌈a⁻¹⌉₊ ≤ 1 then 0 else -((natLog2 (⌈a⁻¹⌉₊ - 1) + 1 : Nat) : Int)

/-- The exponent of the unit in the last place for a magnitude `a`: the
significand has 53 bits, and the least exponent is -1074 (subnormal range). -/
def ulpExp (a : ℚ) : Int := max (floorLog2 a - 52) (-1074)

/-- Rounding of a magnitude to the nearest multiple of its unit in the last
place, ties to even, with the exponent not bounded above. -/
def roundMag (a : ℚ) : ℚ := (roundHalfEven (a / 2 ^ ulpExp a) : ℚ) * 2 ^ ulpExp a

/-- Rounding to nearest, ties to even, of the exact result with sign `neg` and
magnitude `a`: an infinity when the rounded magnitude reaches `2^1024`. -/
def round64 (neg : Bool) (a : ℚ) : Float64 :=
  if (2 : ℚ) ^ (1024 : Int) ≤ roundMag a then .inf neg else .finite neg (roundMag a)

/-- The `float64` addition. -/
def Float64.add : Float64 → Float64 → Float64
  | .nan, _ => .nan
  | _, .nan => .nan
  | .inf a, .inf b => if a = b then .inf a else .nan
  | .inf a, .finite _ _ => .inf a
  | .finite _ _, .inf b => .inf b
  | .finite na a, .finite nb b =>
    let r := (if na then -a else a) + (if nb then -b else b)
    if r = 0 then .finite (na && nb) 0 else round64 (decide (r < 0)) |r|

/-- The `float64` multiplication. -/
def Float64.mul : Float64 → Float64 → Float64
  | .nan, _ => .nan
  | _, .nan => .nan
  | .inf a, .inf b => .inf (xor a b)
  | .inf a, .finite nb b => if b = 0 then .nan else .inf (xor a nb)
  | .finite na a, .inf b => if a = 0 then .nan else .inf (xor na b)
  | .finite na a, .finite nb b => round64 (xor na nb) (a * b)

/-- The `float64` division. -/
def Float64.div : Float64 → Float64 → Float64
  | .nan, _ => .nan
  | _, .nan => .nan
  | .inf _, .inf _ => .nan
  | .inf a, .finite nb _ => .inf (xor a nb)
  | .finite na _, .inf b => .finite (xor na b) 0
  | .finite na a, .finite nb b =>
    if b = 0 then (if a = 0 then .nan else .inf (xor na nb))
    else round64 (xor na nb) (a / b)

/-- The conversion of a decimal constant to `float64`. -/
def Float64.lit (q : ℚ) : Float64 := round64 (decide (q < 0)) |q|

/-- The digits of `%f` for a sign and a magnitude: the magnitude rounded to six
decimal places, ties to even. -/
def fixed6 (neg : Bool) (mag : ℚ) : String :=
  let n := (roundHalfEven (mag * 1000000)).natAbs
  let ds := Nat.toDigits 10 (n % 1000000)
  String.mk ((if neg then ['-'] else []) ++ Nat.toDigits 10 (n / 1000000) ++ ['.']
    ++ List.replicate (6 - ds.length) '0' ++ ds)

/-- The call `fmt.Sprintf("%f", x)` for a `float64`. -/
def Float64.sprintf : Float64 → String
  | .nan => "NaN"
  | .inf neg => if neg then "-Inf" else "+Inf"
  | .finite neg mag => fixed6 neg mag

/-- The operations of `float64`. -/
def float64Ops : Float64Ops Float64 :=
  ⟨Float64.add, Float64.mul, Float64.div, Float64.lit, Float64.sprintf⟩

/-- Rounding to nearest, ties to even, of a signed exact result, as a number. -/
def roundQ (r : ℚ) : ℚ := if r < 0 then -roundMag (-r) else roundMag r

/-- A finite `float64` whose magnitude is non-negative and at most `B`. -/
def Float64.BoundedBy (x : Float64) (B : ℚ) : Prop :=
  ∃ neg mag, x = .finite neg mag ∧ 0 ≤ mag ∧ mag ≤ B

/-- The value of the price `float64` arithmetic gives for a spot price of value
`x` and a rate of value `t`: each of the five operations of lines 39-82 is
rounded. -/
def float64PriceVal (x t : ℚ) : ℚ :=
  roundQ (roundQ (roundQ (roundQ (roundQ (x / 1000) + (Float64.lit 0.7610).val)
    + (Float64.lit 0.0975).val) + t) * (5 / 4))

/-- The record with its two prices read as exact numbers. -/
def exactRecord (hour : HourlyPrice Float64) : HourlyPrice ℚ :=
  ⟨hour.HourUTC, hour.HourDK, hour.PriceArea, hour.SpotPriceDKK.val, hour.SpotPriceEUR.val⟩

deriving instance DecidableEq for Except

/-! ## The tariff schedule as the specification words it -/

section Spec

variable {F : Type}

/-- Specification, step 5 of the transformer: months 4-9 inclusive have the summer
table, all other months the winter table, each as (low, high, peak). -/
def specSeasonTable (A : Float64Ops F) (month : Int) : F × F × F :=
  if 4 ≤ month ∧ month ≤ 9 then (A.lit 0.1126, A.lit 0.1689, A.lit 0.4391)
  else (A.lit 0.1126, A.lit 0.3378, A.lit 1.0133)

/-- Specification, step 6 of the transformer: the rate of the bracket the hour
falls in, hours [0,6) low, [6,17) high, [17,21) peak, [21,24] high. No rate is
specified for any other number. -/
def specGridTariff (A : Float64Ops F) (month hour : Int) : Option F :=
  if 0 ≤ hour ∧ hour < 6 then some (specSeasonTable A month).1
  else if 6 ≤ hour ∧ hour < 17 then some (specSeasonTable A month).2.1
  else if 17 ≤ hour ∧ hour < 21 then some (specSeasonTable A month).2.2
  else if 21 ≤ hour ∧ hour ≤ 24 then some (specSeasonTable A month).2.1
  else none

end Spec

/-! ## Sample inputs -/

/-- A record for noon UTC of 15 June 2024. -/
def juneNoon : HourlyPrice ℚ := ⟨"2024-06-15T12:00:00", "2024-06-15T14:00:00", "DK2", 500, 67⟩

/-- A record for 03:00 UTC of 10 July 2024. -/
def julyNight : HourlyPrice ℚ := ⟨"2024-07-10T03:00:00", "2024-07-10T05:00:00", "DK2", 250, 33.5⟩

/-- A record for 18:00 UTC of 15 December 2024, with a negative spot price. -/
def decemberPeak : HourlyPrice ℚ :=
  ⟨"2024-12-15T18:00:00", "2024-12-15T19:00:00", "DK2", -2000.5, -268⟩

/-- A record for 23:30 UTC of 31 March 2024, which is 01:30 of 1 April in
Copenhagen. -/
def marchLate : HourlyPrice ℚ := ⟨"2024-03-31T23:30:00", "2024-04-01T01:30:00", "DK2", 100, 13⟩

/-- The decoder outcome of `json.Unmarshal` on a body that is not JSON: a syntax
error, and the target left as it was. -/
def rejectingUnmarshal (F : Type) :
    String → PriceDataResponse F → Option String × PriceDataResponse F :=
  fun _ v => (some "invalid character '<' looking for beginning of value", v)

/-! ## The hour brackets -/

section Brackets

variable {F : Type}

/-- Lines 68, 71, 74 and 77: the conditions of the four `if` statements, in
source order, for a given `currentHour`. -/
def bracketConditions (currentHour : Int) : List Bool :=
  [decide (currentHour ≥ 0 ∧ currentHour < 6), decide (currentHour ≥ 6 ∧ currentHour < 17),
    decide (currentHour ≥ 17 ∧ currentHour < 21), decide (currentHour ≥ 21 ∧ currentHour ≤ 24)]

/-- Lines 69, 72, 75 and 78: the index into `tariffs` each of the four `if`
statements uses, in source order. -/
def bracketIndices : List Nat := [0, 1, 2, 1]

/-- The rates the four `if` statements add to `pricePrKwh`, in source order: one
for each condition that holds. -/
def addedRates (tariffs : List F) (currentHour : Int) : List F :=
  ((bracketConditions currentHour).zip bracketIndices).filterMap
    fun ci => if ci.1 then tariffs[ci.2]? else none

/-- The four conditions with the last bracket normalised to [21,24), as the
design notes of the specification propose. -/
def normalisedBracketConditions (hour : Int) : List Bool :=
  [decide (hour ≥ 0 ∧ hour < 6), decide (hour ≥ 6 ∧ hour < 17),
    decide (hour ≥ 17 ∧ hour < 21), decide (hour ≥ 21 ∧ hour < 24)]

/-- The price computation of the specification with the last bracket normalised
to [21,24): `computePrice` with `< 24` for `<= 24` in the fourth condition. -/
def computePriceNormalised (A : Float64Ops F) (d : Time) (hour : HourlyPrice F) :
    Except Panic F := do
  let mut pricePrKwh := A.div hour.SpotPriceDKK (A.lit 1000)
  let stateTariff := A.lit 0.7610
  pricePrKwh := A.add pricePrKwh stateTariff
  let ewiiFees := A.lit 0.0975
  pricePrKwh := A.add pricePrKwh ewiiFees
  let currentMonth := d.Month
  let tariffs := selectTariffs A currentMonth
  let currentHour := d.Hour
  if currentHour ≥ 0 ∧ currentHour < 6 then
    pricePrKwh := A.add pricePrKwh (← index tariffs 0)
  if currentHour ≥ 6 ∧ currentHour < 17 then
    pricePrKwh := A.add pricePrKwh (← index tariffs 1)
  if currentHour ≥ 17 ∧ currentHour < 21 then
    pricePrKwh := A.add pricePrKwh (← index tariffs 2)
  if currentHour ≥ 21 ∧ currentHour < 24 then
    pricePrKwh := A.add pricePrKwh (← index tariffs 1)
  pricePrKwh := A.mul pricePrKwh (A.lit 1.25)
  return pricePrKwh

end Brackets

/-- A record for 22:00 UTC of 15 June 2024, in the last bracket. -/
def juneLate : HourlyPrice ℚ := ⟨"2024-06-15T22:00:00", "2024-06-16T00:00:00", "DK2", 310, 41.5⟩

/-- A record for noon UTC of 15 December 2024, with the spot price of
`juneNoon`. -/
def decemberNoon : HourlyPrice ℚ :=
  ⟨"2024-12-15T12:00:00", "2024-12-15T13:00:00", "DK2", 500, 67⟩

/-- A record for 18:00 UTC of 16 December 2024, with a negative spot price above
that of `decemberPeak`. -/
def decemberPeakNext : HourlyPrice ℚ :=
  ⟨"2024-12-16T18:00:00", "2024-12-16T19:00:00", "DK2", -120.25, -16⟩

/-! ## Reading a decimal string -/

/-- The number a string of decimal digits denotes. -/
def decodeDigits (cs : List Char) : Nat :=
  cs.foldl (fun acc c => acc * 10 + (c.toNat - 48)) 0

/-! ## The timestamp shape and `float64` sample inputs -/

/-- A record for noon UTC of 15 June 2024 with spot price 500.03. -/
def juneNoon64 : HourlyPrice Float64 :=
  ⟨"2024-06-15T12:00:00", "2024-06-15T14:00:00", "DK2", Float64.lit 500.03, Float64.lit 67.04⟩

/-- A record for noon UTC of 15 December 2024 with the spot price of `juneNoon64`. -/
def decemberNoon64 : HourlyPrice Float64 :=
  ⟨"2024-12-15T12:00:00", "2024-12-15T13:00:00", "DK2", Float64.lit 500.03, Float64.lit 67.04⟩

/-- A record for noon UTC of 16 December 2024 with a negative spot price. -/
def decemberNoonNegative64 : HourlyPrice Float64 :=
  ⟨"2024-12-16T12:00:00", "2024-12-16T13:00:00", "DK2", Float64.lit (-1027.4),
    Float64.lit (-137.7)⟩

end Elpris

namespace Elpris

/-! ## Auxiliary lemmas -/

section Lemmas

variable {F : Type}

theorem Time.Hour_range (t : Time) : 0 ≤ t.Hour ∧ t.Hour ≤ 23 := by
  unfold Time.Hour
  omega

theorem selectTariffs_cases (A : Float64Ops F) (m : Int) :
    ∃ t0 t1 t2, selectTariffs A m = [t0, t1, t2] := by
  unfold selectTariffs
  split
  · exact ⟨_, _, _, rfl⟩
  · exact ⟨_, _, _, rfl⟩

/-- The four `if` statements of lines 68-79 add exactly one entry of the table. -/
theorem computePrice_of_table (A : Float64Ops F) (d : Time) (hour : HourlyPrice F)
    (t0 t1 t2 : F) (hT : selectTariffs A d.Month = [t0, t1, t2]) :
    computePrice A d hour = .ok (A.mul (A.add (A.add (A.add
      (A.div hour.SpotPriceDKK (A.lit 1000)) (A.lit 0.7610)) (A.lit 0.0975))
      (if d.Hour < 6 then t0 else if d.Hour < 17 then t1 else if d.Hour < 21 then t2 else t1))
      (A.lit 1.25)) := by
  have hr := Time.Hour_range d
  simp only [computePrice, hT]
  by_cases h6 : d.Hour < 6
  · have a1 : d.Hour ≥ 0 ∧ d.Hour < 6 := ⟨hr.1, h6⟩
    have a2 : ¬ (d.Hour ≥ 6 ∧ d.Hour < 17) := by omega
    have a3 : ¬ (d.Hour ≥ 17 ∧ d.Hour < 21) := by omega
    have a4 : ¬ (d.Hour ≥ 21 ∧ d.Hour ≤ 24) := by omega
    simp only [if_pos a1, if_neg a2, if_neg a3, if_neg a4, if_pos h6]
    rfl
  · by_cases h17 : d.Hour < 17
    · have a1 : ¬ (d.Hour ≥ 0 ∧ d.Hour < 6) := by omega
      have a2 : d.Hour ≥ 6 ∧ d.Hour < 17 := by omega
      have a3 : ¬ (d.Hour ≥ 17 ∧ d.Hour < 21) := by omega
      have a4 : ¬ (d.Hour ≥ 21 ∧ d.Hour ≤ 24) := by omega
      simp only [if_neg a1, if_pos a2, if_neg a3, if_neg a4, if_neg h6, if_pos h17]
      rfl
    · by_cases h21 : d.Hour < 21
      · have a1 : ¬ (d.Hour ≥ 0 ∧ d.Hour < 6) := by omega
        have a2 : ¬ (d.Hour ≥ 6 ∧ d.Hour < 17) := by omega
        have a3 : d.Hour ≥ 17 ∧ d.Hour < 21 := by omega
        have a4 : ¬ (d.Hour ≥ 21 ∧ d.Hour ≤ 24) := by omega
        simp only [if_neg a1, if_neg a2, if_pos a3, if_neg a4, if_neg h6, if_neg h17, if_pos h21]
        rfl
      · have a1 : ¬ (d.Hour ≥ 0 ∧ d.Hour < 6) := by omega
        have a2 : ¬ (d.Hour ≥ 6 ∧ d.Hour < 17) := by omega
        have a3 : ¬ (d.Hour ≥ 17 ∧ d.Hour < 21) := by omega
        have a4 : d.Hour ≥ 21 ∧ d.Hour ≤ 24 := by omega
        simp only [if_neg a1, if_neg a2, if_neg a3, if_pos a4, if_neg h6, if_neg h17, if_neg h21]
        rfl

/-- The price computation never panics. -/
theorem computePrice_ok (A : Float64Ops F) (d : Time) (hour : HourlyPrice F) :
    ∃ p, computePrice A d hour = .ok p := by
  obtain ⟨t0, t1, t2, hT⟩ := selectTariffs_cases A d.Month
  exact ⟨_, computePrice_of_table A d hour t0 t1 t2 hT⟩

/-- A successful parse yields a time in UTC. -/
theorem timeParse_loc {v : String} {d : Time} (h : timeParse v = some d) : d.loc = UTC := by
  unfold timeParse at h
  cases hf : parseFields v with
  | none => rw [hf] at h; cases h
  | some f =>
    rw [hf] at h
    simp only [Option.map_some', Option.some.injEq] at h
    rw [← h]
    rfl

/-- One iteration of the loop succeeds exactly when the timestamp parses. -/
theorem transformRecord_of_parse (A : Float64Ops F) (l : Location) (hour : HourlyPrice F)
    (d : Time) (hd : timeParse hour.HourUTC = some d) :
    ∃ p, computePrice A d hour = .ok p ∧
      transformRecord A l hour = .ok ⟨(d.In l).Format, A.sprintf p⟩ := by
  obtain ⟨p, hp⟩ := computePrice_ok A d hour
  refine ⟨p, hp, ?_⟩
  unfold transformRecord
  rw [hd]
  simp only [hp]
  rfl

/-- When every timestamp parses, the loop appends one entry per record, in
input order. -/
theorem loop_ok (A : Float64Ops F) (l : Location) (prices : List (HourlyPrice F)) :
    (∀ r ∈ prices, (timeParse r.HourUTC).isSome) →
    ∀ acc, ∃ out, loop A l prices acc = .ok (acc ++ out) ∧
      out.map Except.ok = prices.map (transformRecord A l) := by
  induction prices with
  | nil =>
    intro _ acc
    exact ⟨[], by simp [loop], rfl⟩
  | cons hour rest ih =>
    intro hwf acc
    have hsome := hwf hour (List.mem_cons_self _ _)
    obtain ⟨d, hd⟩ := Option.isSome_iff_exists.mp hsome
    obtain ⟨p, _, hp⟩ := transformRecord_of_parse A l hour d hd
    obtain ⟨out, hout, hmap⟩ :=
      ih (fun r hr => hwf r (List.mem_cons_of_mem _ hr)) (acc ++ [⟨(d.In l).Format, A.sprintf p⟩])
    refine ⟨⟨(d.In l).Format, A.sprintf p⟩ :: out, ?_, ?_⟩
    · simp only [loop, hp, hout, List.append_assoc, List.singleton_append]
    · simp only [List.map_cons, hp, hmap]

/-- The normalised computation adds exactly one entry of the table as well. -/
theorem computePriceNormalised_of_table (A : Float64Ops F) (d : Time) (hour : HourlyPrice F)
    (t0 t1 t2 : F) (hT : selectTariffs A d.Month = [t0, t1, t2]) :
    computePriceNormalised A d hour = .ok (A.mul (A.add (A.add (A.add
      (A.div hour.SpotPriceDKK (A.lit 1000)) (A.lit 0.7610)) (A.lit 0.0975))
      (if d.Hour < 6 then t0 else if d.Hour < 17 then t1 else if d.Hour < 21 then t2 else t1))
      (A.lit 1.25)) := by
  have hr := Time.Hour_range d
  simp only [computePriceNormalised, hT]
  by_cases h6 : d.Hour < 6
  · have a1 : d.Hour ≥ 0 ∧ d.Hour < 6 := ⟨hr.1, h6⟩
    have a2 : ¬ (d.Hour ≥ 6 ∧ d.Hour < 17) := by omega
    have a3 : ¬ (d.Hour ≥ 17 ∧ d.Hour < 21) := by omega
    have a4 : ¬ (d.Hour ≥ 21 ∧ d.Hour < 24) := by omega
    simp only [if_pos a1, if_neg a2, if_neg a3, if_neg a4, if_pos h6]
    rfl
  · by_cases h17 : d.Hour < 17
    · have a1 : ¬ (d.Hour ≥ 0 ∧ d.Hour < 6) := by omega
      have a2 : d.Hour ≥ 6 ∧ d.Hour < 17 := by omega
      have a3 : ¬ (d.Hour ≥ 17 ∧ d.Hour < 21) := by omega
      have a4 : ¬ (d.Hour ≥ 21 ∧ d.Hour < 24) := by omega
      simp only [if_neg a1, if_pos a2, if_neg a3, if_neg a4, if_neg h6, if_pos h17]
      rfl
    · by_cases h21 : d.Hour < 21
      · have a1 : ¬ (d.Hour ≥ 0 ∧ d.Hour < 6) := by omega
        have a2 : ¬ (d.Hour ≥ 6 ∧ d.Hour < 17) := by omega
        have a3 : d.Hour ≥ 17 ∧ d.Hour < 21 := by omega
        have a4 : ¬ (d.Hour ≥ 21 ∧ d.Hour < 24) := by omega
        simp only [if_neg a1, if_neg a2, if_pos a3, if_neg a4, if_neg h6, if_neg h17, if_pos h21]
        rfl
      · have a1 : ¬ (d.Hour ≥ 0 ∧ d.Hour < 6) := by omega
        have a2 : ¬ (d.Hour ≥ 6 ∧ d.Hour < 17) := by omega
        have a3 : ¬ (d.Hour ≥ 17 ∧ d.Hour < 21) := by omega
        have a4 : d.Hour ≥ 21 ∧ d.Hour < 24 := by omega
        simp only [if_neg a1, if_neg a2, if_neg a3, if_pos a4, if_neg h6, if_neg h17, if_neg h21]
        rfl

/-- For an hour of the day, the rates added are the single entry the bracket
of the hour points at. -/
theorem addedRates_of_table (t0 t1 t2 : F) (h : Int) (h0 : 0 ≤ h) (h23 : h ≤ 23) :
    addedRates [t0, t1, t2] h
      = [if h < 6 then t0 else if h < 17 then t1 else if h < 21 then t2 else t1] := by
  by_cases h6 : h < 6
  · have a1 : h ≥ 0 ∧ h < 6 := ⟨h0, h6⟩
    have a2 : ¬ (h ≥ 6 ∧ h < 17) := by omega
    have a3 : ¬ (h ≥ 17 ∧ h < 21) := by omega
    have a4 : ¬ (h ≥ 21 ∧ h ≤ 24) := by omega
    simp [addedRates, bracketConditions, bracketIndices, a1, a2, a3, a4, h6]
  · by_cases h17 : h < 17
    · have a1 : ¬ (h ≥ 0 ∧ h < 6) := by omega
      have a2 : h ≥ 6 ∧ h < 17 := by omega
      have a3 : ¬ (h ≥ 17 ∧ h < 21) := by omega
      have a4 : ¬ (h ≥ 21 ∧ h ≤ 24) := by omega
      simp [addedRates, bracketConditions, bracketIndices, a1, a2, a3, a4, h6, h17]
    · by_cases h21 : h < 21
      · have a1 : ¬ (h ≥ 0 ∧ h < 6) := by omega
        have a2 : ¬ (h ≥ 6 ∧ h < 17) := by omega
        have a3 : h ≥ 17 ∧ h < 21 := by omega
        have a4 : ¬ (h ≥ 21 ∧ h ≤ 24) := by omega
        simp [addedRates, bracketConditions, bracketIndices, a1, a2, a3, a4, h6, h17, h21]
      · have a1 : ¬ (h ≥ 0 ∧ h < 6) := by omega
        have a2 : ¬ (h ≥ 6 ∧ h < 17) := by omega
        have a3 : ¬ (h ≥ 17 ∧ h < 21) := by omega
        have a4 : h ≥ 21 ∧ h ≤ 24 := by omega
        simp [addedRates, bracketConditions, bracketIndices, a1, a2, a3, a4, h6, h17, h21]

/-- On an hour of the day exactly one of the four conditions holds. -/
theorem bracketConditions_count (h : Int) (h0 : 0 ≤ h) (h23 : h ≤ 23) :
    (bracketConditions h).count true = 1 := by
  have hh : h = 0 ∨ h = 1 ∨ h = 2 ∨ h = 3 ∨ h = 4 ∨ h = 5 ∨ h = 6 ∨ h = 7 ∨ h = 8 ∨ h = 9
      ∨ h = 10 ∨ h = 11 ∨ h = 12 ∨ h = 13 ∨ h = 14 ∨ h = 15 ∨ h = 16 ∨ h = 17 ∨ h = 18
      ∨ h = 19 ∨ h = 20 ∨ h = 21 ∨ h = 22 ∨ h = 23 := by omega
  rcases hh with h | h | h | h | h | h | h | h | h | h | h | h | h | h | h | h | h | h | h | h
    | h | h | h | h <;> subst h <;> decide

/-- The price in exact arithmetic, as an expression of rational numbers. -/
theorem computePrice_exact (d : Time) (hour : HourlyPrice ℚ) (t0 t1 t2 : ℚ)
    (hT : selectTariffs exactOps d.Month = [t0, t1, t2]) :
    computePrice exactOps d hour = .ok ((hour.SpotPriceDKK / 1000 + 0.7610 + 0.0975
      + (if d.Hour < 6 then t0 else if d.Hour < 17 then t1 else if d.Hour < 21 then t2 else t1))
      * 1.25) := by
  rw [computePrice_of_table exactOps d hour t0 t1 t2 hT]
  rfl

theorem selectTariffs_exact_summer (m : Int) (hm : 4 ≤ m ∧ m ≤ 9) :
    selectTariffs exactOps m = [0.1126, 0.1689, 0.4391] := by
  have hm2 : m ≥ 4 ∧ m ≤ 9 := hm
  simp only [selectTariffs, if_pos hm2, summerTariffs]
  rfl

theorem digitChar_spec (k : Nat) (hk : k < 10) :
    isDigitChar (Nat.digitChar k) = true ∧ (Nat.digitChar k).toNat - 48 = k := by
  interval_cases k <;> decide

theorem foldl_digits_acc (cs : List Char) (acc : Nat) :
    cs.foldl (fun a c => a * 10 + (c.toNat - 48)) acc
      = acc * 10 ^ cs.length + decodeDigits cs := by
  induction cs generalizing acc with
  | nil => simp [decodeDigits]
  | cons c cs ih =>
    simp only [decodeDigits, List.foldl_cons, List.length_cons] at ih ⊢
    rw [ih (acc * 10 + (c.toNat - 48)), ih (0 * 10 + (c.toNat - 48))]
    ring

theorem decodeDigits_append (a b : List Char) :
    decodeDigits (a ++ b) = decodeDigits a * 10 ^ b.length + decodeDigits b := by
  unfold decodeDigits
  rw [List.foldl_append, foldl_digits_acc b]
  rfl

theorem decodeDigits_replicate_zero (k : Nat) : decodeDigits (List.replicate k '0') = 0 := by
  induction k with
  | zero => rfl
  | succ k ih =>
    have h1 : decodeDigits ['0'] = 0 := by decide
    rw [List.replicate_succ, ← List.singleton_append, decodeDigits_append, ih, h1]
    simp

/-- The digits `Nat.toDigitsCore` puts in front of `ds`: at least one, all decimal
digits, denoting `n`. -/
theorem toDigitsCore_spec (fuel : Nat) : ∀ (n : Nat) (ds : List Char), n < fuel →
    ∃ front, Nat.toDigitsCore 10 fuel n ds = front ++ ds ∧ front ≠ [] ∧
      (∀ c ∈ front, isDigitChar c = true) ∧ decodeDigits front = n := by
  induction fuel with
  | zero => intro n ds h; omega
  | succ fuel ih =>
    intro n ds hn
    have hd := digitChar_spec (n % 10) (Nat.mod_lt _ (by decide))
    by_cases h0 : n / 10 = 0
    · refine ⟨[Nat.digitChar (n % 10)], ?_, by simp, ?_, ?_⟩
      · simp only [Nat.toDigitsCore, h0, if_true, List.singleton_append]
      · intro c hc
        rw [List.mem_singleton.mp hc]
        exact hd.1
      · show 0 * 10 + ((Nat.digitChar (n % 10)).toNat - 48) = n
        rw [hd.2]
        omega
    · obtain ⟨front, hfront, _, hall, hval⟩ :=
        ih (n / 10) (Nat.digitChar (n % 10) :: ds) (by omega)
      refine ⟨front ++ [Nat.digitChar (n % 10)], ?_, by simp, ?_, ?_⟩
      · simp only [Nat.toDigitsCore, h0, if_false, hfront, List.append_assoc,
          List.singleton_append]
      · intro c hc
        rcases List.mem_append.mp hc with h | h
        · exact hall c h
        · rw [List.mem_singleton.mp h]
          exact hd.1
      · rw [decodeDigits_append, hval]
        show n / 10 * 10 ^ 1 + (0 * 10 + ((Nat.digitChar (n % 10)).toNat - 48)) = n
        rw [hd.2]
        omega

theorem toDigits_spec (n : Nat) :
    Nat.toDigits 10 n ≠ [] ∧ (∀ c ∈ Nat.toDigits 10 n, isDigitChar c = true) ∧
      decodeDigits (Nat.toDigits 10 n) = n := by
  obtain ⟨front, hfront, hne, hall, hval⟩ := toDigitsCore_spec (n + 1) n [] (by omega)
  have e : Nat.toDigits 10 n = front := by
    unfold Nat.toDigits
    rw [hfront, List.append_nil]
  rw [e]
  exact ⟨hne, hall, hval⟩

theorem toDigits_length_le_six (m : Nat) (hm : m < 1000000) :
    (Nat.toDigits 10 m).length ≤ 6 :=
  Nat.toDigitsCore_length 10 (by decide) (m + 1) m 6 (by omega) (by decide)

/-- Rounding a non-negative number gives a non-negative integer within one half
of it. -/
theorem roundHalfEven_spec (x : ℚ) (hx : 0 ≤ x) :
    0 ≤ roundHalfEven x ∧ |((roundHalfEven x : Int) : ℚ) - x| ≤ 1 / 2 := by
  have hf : Rat.floor x = ⌊x⌋ := rfl
  have h0 : 0 ≤ ⌊x⌋ := Int.floor_nonneg.mpr hx
  have h1 : (⌊x⌋ : ℚ) ≤ x := Int.floor_le x
  have h2 : x < ⌊x⌋ + 1 := Int.lt_floor_add_one x
  simp only [roundHalfEven, hf]
  split_ifs with a b c
  · refine ⟨h0, ?_⟩
    rw [abs_le]
    constructor <;> linarith
  · refine ⟨by omega, ?_⟩
    rw [abs_le]
    push_cast
    constructor <;> linarith
  · refine ⟨h0, ?_⟩
    rw [abs_le]
    constructor <;> linarith
  · refine ⟨by omega, ?_⟩
    rw [abs_le]
    push_cast
    constructor <;> linarith

/-- The shape and the value of the string `sprintfExact` gives. -/
theorem sprintfExact_spec (q : ℚ) :
    ∃ (neg : Bool) (ip fp : List Char),
      (sprintfExact q).toList = (if neg then ['-'] else []) ++ ip ++ ['.'] ++ fp ∧
      ip ≠ [] ∧ (∀ c ∈ ip, isDigitChar c = true) ∧
      fp.length = 6 ∧ (∀ c ∈ fp, isDigitChar c = true) ∧
      |(if neg then -1 else 1) * ((decodeDigits ip : ℚ) + (decodeDigits fp : ℚ) / 1000000) - q|
        ≤ 1 / 2000000 := by
  have hx : 0 ≤ |q| * 1000000 := mul_nonneg (abs_nonneg q) (by norm_num)
  obtain ⟨hr0, hrabs⟩ := roundHalfEven_spec (|q| * 1000000) hx
  obtain ⟨n, hn⟩ : ∃ n : Nat, n = (roundHalfEven (|q| * 1000000)).natAbs := ⟨_, rfl⟩
  have hcast : ((n : Int) : ℚ) = ((roundHalfEven (|q| * 1000000) : Int) : ℚ) := by
    rw [hn, Int.natAbs_of_nonneg hr0]
  obtain ⟨hine, hiall, hival⟩ := toDigits_spec (n / 1000000)
  obtain ⟨_, hfall, hfval⟩ := toDigits_spec (n % 1000000)
  have hflen := toDigits_length_le_six (n % 1000000) (Nat.mod_lt _ (by decide))
  refine ⟨decide (q < 0), Nat.toDigits 10 (n / 1000000),
    List.replicate (6 - (Nat.toDigits 10 (n % 1000000)).length) '0'
      ++ Nat.toDigits 10 (n % 1000000), ?_, hine, hiall, ?_, ?_, ?_⟩
  · simp only [sprintfExact, ← hn, decide_eq_true_eq, List.append_assoc]
    rfl
  · rw [List.length_append, List.length_replicate]
    omega
  · intro c hc
    rcases List.mem_append.mp hc with h | h
    · rw [List.eq_of_mem_replicate h]
      decide
    · exact hfall c h
  · rw [decodeDigits_append, decodeDigits_replicate_zero, hival, hfval, zero_mul, zero_add]
    have hsplit : ((n / 1000000 : Nat) : ℚ) + ((n % 1000000 : Nat) : ℚ) / 1000000
        = (n : ℚ) / 1000000 := by
      have h := Nat.div_add_mod n 1000000
      have h2 : (n : ℚ) = 1000000 * ((n / 1000000 : Nat) : ℚ) + ((n % 1000000 : Nat) : ℚ) := by
        exact_mod_cast h.symm
      rw [h2]
      ring
    rw [hsplit]
    have hnq : |(n : ℚ) - |q| * 1000000| ≤ 1 / 2 := by
      have : (n : ℚ) = ((n : Int) : ℚ) := by norm_cast
      rw [this, hcast]
      exact hrabs
    rw [abs_le] at hnq ⊢
    by_cases hq : q < 0
    · have habs : |q| = -q := abs_of_neg hq
      rw [habs] at hnq
      simp only [hq, decide_True, if_true]
      constructor <;> linarith [hnq.1, hnq.2]
    · have habs : |q| = q := abs_of_nonneg (not_lt.mp hq)
      rw [habs] at hnq
      simp only [hq, decide_False, Bool.false_eq_true, if_false]
      constructor <;> linarith [hnq.1, hnq.2]

theorem roundHalfEven_intCast (z : Int) : roundHalfEven (z : ℚ) = z := by
  have hf : Rat.floor (z : ℚ) = z := by
    show ⌊(z : ℚ)⌋ = z
    exact Int.floor_intCast _
  simp only [roundHalfEven, hf]
  norm_num

/-- The entry the loop appends for `juneNoon`, evaluated. -/
theorem transformRecord_juneNoon :
    transformRecord exactOps europeCopenhagen juneNoon
      = .ok ⟨"2024-06-15T14:00:00+02:00", "1.909250"⟩ := by
  obtain ⟨p, hp, he⟩ := transformRecord_of_parse exactOps europeCopenhagen juneNoon
    (Date 2024 6 15 12 0 0 UTC) rfl
  have hT := selectTariffs_exact_summer (Date 2024 6 15 12 0 0 UTC).Month (by decide)
  rw [computePrice_exact _ _ _ _ _ hT] at hp
  have h6 : ¬ (Date 2024 6 15 12 0 0 UTC).Hour < 6 := by decide
  have h17 : (Date 2024 6 15 12 0 0 UTC).Hour < 17 := by decide
  rw [if_neg h6, if_pos h17] at hp
  have hval : (juneNoon.SpotPriceDKK / 1000 + 0.7610 + 0.0975 + 0.1689) * 1.25
      = ((1909250 : Int) : ℚ) / 1000000 := by
    norm_num [juneNoon]
  have hr : roundHalfEven (|((1909250 : Int) : ℚ) / 1000000| * 1000000) = 1909250 := by
    have e : |((1909250 : Int) : ℚ) / 1000000| * 1000000 = ((1909250 : Int) : ℚ) := by
      rw [abs_of_nonneg (by norm_num)]
      norm_num
    rw [e, roundHalfEven_intCast]
  have hs : exactOps.sprintf p = "1.909250" := by
    have hp2 : p = ((1909250 : Int) : ℚ) / 1000000 := by
      rw [hval] at hp
      cases hp
      rfl
    rw [hp2]
    show sprintfExact _ = _
    simp only [sprintfExact, hr]
    norm_num
    decide
  have hf : ((Date 2024 6 15 12 0 0 UTC).In europeCopenhagen).Format
      = "2024-06-15T14:00:00+02:00" := by decide
  rw [he, hs, hf]

/-! ### Rounding to `float64` -/

theorem roundHalfEven_mono {x y : ℚ} (h : x ≤ y) : roundHalfEven x ≤ roundHalfEven y := by
  have hfx : Rat.floor x = ⌊x⌋ := rfl
  have hfy : Rat.floor y = ⌊y⌋ := rfl
  have hff : ⌊x⌋ ≤ ⌊y⌋ := Int.floor_mono h
  have hx1 : (⌊x⌋ : ℚ) ≤ x := Int.floor_le x
  have hy1 : (⌊y⌋ : ℚ) ≤ y := Int.floor_le y
  have hx2 : x < ⌊x⌋ + 1 := Int.lt_floor_add_one x
  have hy2 : y < ⌊y⌋ + 1 := Int.lt_floor_add_one y
  rcases hff.lt_or_eq with hlt | heq
  · have hxle : roundHalfEven x ≤ ⌊x⌋ + 1 := by
      simp only [roundHalfEven, hfx]
      split_ifs <;> omega
    have hyge : ⌊y⌋ ≤ roundHalfEven y := by
      simp only [roundHalfEven, hfy]
      split_ifs <;> omega
    omega
  · simp only [roundHalfEven, hfx, hfy, ← heq]
    have hc : ((⌊y⌋ : Int) : ℚ) = ((⌊x⌋ : Int) : ℚ) := by rw [heq]
    split_ifs <;> first | omega | (exfalso; linarith)

theorem roundHalfEven_nonneg {x : ℚ} (hx : 0 ≤ x) : 0 ≤ roundHalfEven x :=
  (roundHalfEven_spec x hx).1

theorem two_zpow_pos (e : Int) : (0 : ℚ) < 2 ^ e := zpow_pos (by norm_num) e

theorem roundMag_nonneg {a : ℚ} (ha : 0 ≤ a) : 0 ≤ roundMag a := by
  unfold roundMag
  have h1 : 0 ≤ roundHalfEven (a / 2 ^ ulpExp a) :=
    roundHalfEven_nonneg (div_nonneg ha (two_zpow_pos _).le)
  have h2 : (0 : ℚ) ≤ (roundHalfEven (a / 2 ^ ulpExp a) : ℚ) := by exact_mod_cast h1
  exact mul_nonneg h2 (two_zpow_pos _).le

theorem roundMag_zero : roundMag 0 = 0 := by
  unfold roundMag
  rw [zero_div]
  have : roundHalfEven 0 = 0 := by
    have := roundHalfEven_intCast 0
    simpa using this
  rw [this]
  simp

theorem log2Fuel_eq (fuel : Nat) : ∀ n, n ≤ fuel → log2Fuel fuel n = Nat.log 2 n := by
  induction fuel with
  | zero =>
    intro n hn
    have : n = 0 := by omega
    subst this
    simp [log2Fuel]
  | succ fuel ih =>
    intro n hn
    unfold log2Fuel
    by_cases h : n < 2
    · rw [if_pos h, Nat.log_of_lt h]
    · rw [if_neg h, Nat.log_of_one_lt_of_le (by norm_num) (by omega), ih _ (by omega)]

theorem natLog2_eq (n : Nat) : natLog2 n = Nat.log 2 n := log2Fuel_eq n n le_rfl

theorem natLog2_pred_succ_eq_clog (n : Nat) (hn : 2 ≤ n) :
    natLog2 (n - 1) + 1 = Nat.clog 2 n := by
  rw [natLog2_eq]
  apply eq_of_forall_ge_iff
  intro y
  rw [← Nat.le_pow_iff_clog_le (by norm_num), Nat.succ_le_iff,
    ← Nat.lt_pow_iff_log_lt (by norm_num) (by omega)]
  omega

theorem floorLog2_eq_log (a : ℚ) : floorLog2 a = Int.log 2 a := by
  unfold floorLog2
  by_cases h : 1 ≤ a
  · rw [if_pos h, Int.log_of_one_le_right 2 h, natLog2_eq]
  · rw [if_neg h, Int.log_of_right_le_one 2 (le_of_lt (not_le.mp h))]
    by_cases h1 : ⌈a⁻¹⌉₊ ≤ 1
    · rw [if_pos h1, Nat.clog_of_right_le_one h1]
      simp
    · rw [if_neg h1, natLog2_pred_succ_eq_clog _ (by omega)]

theorem ulpExp_eq (a : ℚ) : ulpExp a = max (Int.log 2 a - 52) (-1074) := by
  unfold ulpExp
  rw [floorLog2_eq_log]

theorem ulpExp_mono {a b : ℚ} (ha : 0 < a) (h : a ≤ b) : ulpExp a ≤ ulpExp b := by
  rw [ulpExp_eq, ulpExp_eq]
  have := Int.log_mono_right (b := 2) ha h
  omega

theorem roundMag_mono {a b : ℚ} (ha : 0 ≤ a) (h : a ≤ b) : roundMag a ≤ roundMag b := by
  rcases ha.lt_or_eq with hpos | hzero
  · have hb : 0 < b := lt_of_lt_of_le hpos h
    have he := ulpExp_mono hpos h
    rcases he.lt_or_eq with hlt | heq
    · have hea : Int.log 2 a - 52 ≤ ulpExp a := by
        rw [ulpExp_eq]
        exact le_max_left _ _
      have heb : ulpExp b = Int.log 2 b - 52 := by
        rw [ulpExp_eq a, ulpExp_eq b] at hlt
        rw [ulpExp_eq b]
        omega
      have h1 : a < (2 : ℚ) ^ (Int.log 2 a + 1) := by
        have := Int.lt_zpow_succ_log_self (b := 2) (by norm_num) a
        simpa using this
      have h2 : (2 : ℚ) ^ (Int.log 2 b) ≤ b := by
        have := Int.zpow_log_le_self (b := 2) (r := b) (by norm_num) hb
        simpa using this
      have hA : roundMag a ≤ (2 : ℚ) ^ (ulpExp a + 53) := by
        unfold roundMag
        have hq : a / 2 ^ ulpExp a ≤ (((2 : Int) ^ 53 : Int) : ℚ) := by
          rw [div_le_iff₀ (two_zpow_pos _)]
          have h3 : (2 : ℚ) ^ (Int.log 2 a + 1) ≤ 2 ^ (ulpExp a + 53) :=
            zpow_le_zpow_right₀ (by norm_num) (by omega)
          have h4 : (2 : ℚ) ^ (ulpExp a + 53) = (((2 : Int) ^ 53 : Int) : ℚ) * 2 ^ ulpExp a := by
            rw [zpow_add₀ (by norm_num), mul_comm]
            norm_num
          linarith
        have hr := roundHalfEven_mono hq
        rw [roundHalfEven_intCast] at hr
        have hr2 : ((roundHalfEven (a / 2 ^ ulpExp a) : Int) : ℚ) ≤ (((2 : Int) ^ 53 : Int) : ℚ) := by
          exact_mod_cast hr
        have h4 : (2 : ℚ) ^ (ulpExp a + 53) = (((2 : Int) ^ 53 : Int) : ℚ) * 2 ^ ulpExp a := by
          rw [zpow_add₀ (by norm_num), mul_comm]
          norm_num
        rw [h4]
        exact mul_le_mul_of_nonneg_right hr2 (two_zpow_pos _).le
      have hB : (2 : ℚ) ^ (ulpExp b + 52) ≤ roundMag b := by
        unfold roundMag
        have hq : (((2 : Int) ^ 52 : Int) : ℚ) ≤ b / 2 ^ ulpExp b := by
          rw [le_div_iff₀ (two_zpow_pos _)]
          have h4 : (2 : ℚ) ^ (Int.log 2 b) = (((2 : Int) ^ 52 : Int) : ℚ) * 2 ^ ulpExp b := by
            have : Int.log 2 b = ulpExp b + 52 := by omega
            rw [this, zpow_add₀ (by norm_num), mul_comm]
            norm_num
          linarith
        have hr := roundHalfEven_mono hq
        rw [roundHalfEven_intCast] at hr
        have hr2 : (((2 : Int) ^ 52 : Int) : ℚ) ≤ ((roundHalfEven (b / 2 ^ ulpExp b) : Int) : ℚ) := by
          exact_mod_cast hr
        have h4 : (2 : ℚ) ^ (ulpExp b + 52) = (((2 : Int) ^ 52 : Int) : ℚ) * 2 ^ ulpExp b := by
          rw [zpow_add₀ (by norm_num), mul_comm]
          norm_num
        rw [h4]
        exact mul_le_mul_of_nonneg_right hr2 (two_zpow_pos _).le
      have hmid : (2 : ℚ) ^ (ulpExp a + 53) ≤ 2 ^ (ulpExp b + 52) :=
        zpow_le_zpow_right₀ (by norm_num) (by omega)
      linarith
    · unfold roundMag
      rw [heq]
      have hq : a / 2 ^ ulpExp b ≤ b / 2 ^ ulpExp b :=
        div_le_div_of_nonneg_right h (two_zpow_pos _).le
      have hr := roundHalfEven_mono hq
      have hr2 : ((roundHalfEven (a / 2 ^ ulpExp b) : Int) : ℚ)
          ≤ ((roundHalfEven (b / 2 ^ ulpExp b) : Int) : ℚ) := by exact_mod_cast hr
      exact mul_le_mul_of_nonneg_right hr2 (two_zpow_pos _).le
  · rw [← hzero, roundMag_zero]
    exact roundMag_nonneg (hzero ▸ h)


theorem roundMag_two_pow (k : Int) (hk : -1074 ≤ k) : roundMag ((2 : ℚ) ^ k) = 2 ^ k := by
  have hlog : Int.log 2 ((2 : ℚ) ^ k) = k := by
    have := Int.log_zpow (R := ℚ) (b := 2) (by norm_num) k
    simpa using this
  have he : ulpExp ((2 : ℚ) ^ k) ≤ k := by
    rw [ulpExp_eq, hlog]
    omega
  obtain ⟨n, hn⟩ : ∃ n : Nat, k - ulpExp ((2 : ℚ) ^ k) = n :=
    ⟨(k - ulpExp ((2 : ℚ) ^ k)).toNat, by omega⟩
  have hq : (2 : ℚ) ^ k / 2 ^ ulpExp ((2 : ℚ) ^ k) = (((2 : Int) ^ n : Int) : ℚ) := by
    rw [← zpow_sub₀ (by norm_num), hn]
    norm_num
  unfold roundMag
  rw [hq, roundHalfEven_intCast]
  have : (((2 : Int) ^ n : Int) : ℚ) = (2 : ℚ) ^ (k - ulpExp ((2 : ℚ) ^ k)) := by
    rw [hn]
    norm_num
  rw [this, ← zpow_add₀ (by norm_num)]
  congr 1
  omega

theorem roundMag_le_two_pow {a : ℚ} {k : Int} (ha : 0 ≤ a) (h : a ≤ 2 ^ k) (hk : -1074 ≤ k) :
    roundMag a ≤ 2 ^ k :=
  (roundMag_mono ha h).trans_eq (roundMag_two_pow k hk)

theorem round64_of_le (neg : Bool) {a : ℚ} {k : Int} (ha : 0 ≤ a) (h : a ≤ 2 ^ k)
    (hk : -1074 ≤ k) (hk2 : k ≤ 1023) :
    round64 neg a = .finite neg (roundMag a) ∧ 0 ≤ roundMag a ∧ roundMag a ≤ 2 ^ k := by
  have hle := roundMag_le_two_pow ha h hk
  have hlt : (2 : ℚ) ^ k < 2 ^ (1024 : Int) := zpow_lt_zpow_right₀ (by norm_num) (by omega)
  refine ⟨?_, roundMag_nonneg ha, hle⟩
  unfold round64
  rw [if_neg (by linarith)]

theorem roundQ_zero : roundQ 0 = 0 := by
  unfold roundQ
  rw [if_neg (lt_irrefl 0), roundMag_zero]

theorem roundQ_mono {r s : ℚ} (h : r ≤ s) : roundQ r ≤ roundQ s := by
  unfold roundQ
  by_cases hr : r < 0
  · by_cases hs : s < 0
    · rw [if_pos hr, if_pos hs]
      have := roundMag_mono (a := -s) (b := -r) (by linarith) (by linarith)
      linarith
    · rw [if_pos hr, if_neg hs]
      have h1 := roundMag_nonneg (a := -r) (by linarith)
      have h2 := roundMag_nonneg (a := s) (by linarith)
      linarith
  · have hs : ¬ s < 0 := by linarith
    rw [if_neg hr, if_neg hs]
    exact roundMag_mono (by linarith) h

theorem Float64.BoundedBy.mono {x : Float64} {B C : ℚ} (h : x.BoundedBy B) (hBC : B ≤ C) :
    x.BoundedBy C := by
  obtain ⟨n, m, hx, h0, hB⟩ := h
  exact ⟨n, m, hx, h0, hB.trans hBC⟩

theorem Float64.BoundedBy.abs_val {x : Float64} {B : ℚ} (h : x.BoundedBy B) : |x.val| ≤ B := by
  obtain ⟨n, m, hx, h0, hB⟩ := h
  subst hx
  cases n
  · simp only [Float64.val, Bool.false_eq_true, if_false]
    rw [abs_of_nonneg h0]
    exact hB
  · simp only [Float64.val, if_true]
    rw [abs_neg, abs_of_nonneg h0]
    exact hB

/-- A finite sum that stays in range is the rounded exact sum. -/
theorem Float64.add_bounded {x y : Float64} {Bx By : ℚ} {k : Int}
    (hx : x.BoundedBy Bx) (hy : y.BoundedBy By) (hB : Bx + By ≤ 2 ^ k)
    (hk : -1074 ≤ k) (hk2 : k ≤ 1023) :
    (Float64.add x y).BoundedBy (2 ^ k) ∧ (Float64.add x y).val = roundQ (x.val + y.val) := by
  have hax := hx.abs_val
  have hay := hy.abs_val
  obtain ⟨na, a, rfl, ha0, haB⟩ := hx
  obtain ⟨nb, b, rfl, hb0, hbB⟩ := hy
  simp only [Float64.val] at hax hay ⊢
  simp only [Float64.add]
  by_cases hr : (if na then -a else a) + (if nb then -b else b) = 0
  · rw [if_pos hr, hr, roundQ_zero]
    refine ⟨⟨_, 0, rfl, le_refl _, (two_zpow_pos k).le⟩, ?_⟩
    simp [Float64.val]
  · rw [if_neg hr]
    have habs : |(if na then -a else a) + (if nb then -b else b)| ≤ 2 ^ k :=
      (abs_add _ _).trans (by linarith)
    obtain ⟨h1, h2, h3⟩ := round64_of_le
      (decide ((if na then -a else a) + (if nb then -b else b) < 0)) (abs_nonneg _) habs hk hk2
    rw [h1]
    refine ⟨⟨_, _, rfl, h2, h3⟩, ?_⟩
    unfold roundQ
    by_cases hneg : (if na then -a else a) + (if nb then -b else b) < 0
    · simp only [Float64.val, hneg, decide_True, if_true, abs_of_neg hneg]
    · simp only [Float64.val, hneg, decide_False, Bool.false_eq_true, if_false,
        abs_of_nonneg (not_lt.mp hneg)]

/-- A finite product that stays in range is the rounded exact product. -/
theorem Float64.mul_bounded {x y : Float64} {Bx By : ℚ} {k : Int}
    (hx : x.BoundedBy Bx) (hy : y.BoundedBy By) (hB : Bx * By ≤ 2 ^ k)
    (hk : -1074 ≤ k) (hk2 : k ≤ 1023) :
    (Float64.mul x y).BoundedBy (2 ^ k) ∧ (Float64.mul x y).val = roundQ (x.val * y.val) := by
  obtain ⟨na, a, rfl, ha0, haB⟩ := hx
  obtain ⟨nb, b, rfl, hb0, hbB⟩ := hy
  have hab0 : 0 ≤ a * b := mul_nonneg ha0 hb0
  have hab : a * b ≤ 2 ^ k :=
    (mul_le_mul haB hbB hb0 (ha0.trans haB)).trans hB
  obtain ⟨h1, h2, h3⟩ := round64_of_le (xor na nb) hab0 hab hk hk2
  simp only [Float64.mul, h1]
  refine ⟨⟨_, _, rfl, h2, h3⟩, ?_⟩
  rcases hab0.lt_or_eq with hpos | hzero
  · unfold roundQ
    cases na <;> cases nb <;> simp [Float64.val, hpos, hpos.le, not_lt.mpr hpos.le]
  · unfold roundQ
    cases na <;> cases nb <;> simp [Float64.val, ← hzero, roundMag_zero]

/-- A finite quotient by a non-zero finite value that stays in range is the
rounded exact quotient. -/
theorem Float64.div_bounded {x : Float64} {Bx : ℚ} {k : Int} (nb : Bool) {b : ℚ}
    (hx : x.BoundedBy Bx) (hb : 0 < b) (hB : Bx / b ≤ 2 ^ k)
    (hk : -1074 ≤ k) (hk2 : k ≤ 1023) :
    (Float64.div x (.finite nb b)).BoundedBy (2 ^ k) ∧
      (Float64.div x (.finite nb b)).val = roundQ (x.val / (Float64.finite nb b).val) := by
  obtain ⟨na, a, rfl, ha0, haB⟩ := hx
  have hab0 : 0 ≤ a / b := div_nonneg ha0 hb.le
  have hab : a / b ≤ 2 ^ k := (div_le_div_of_nonneg_right haB hb.le).trans hB
  obtain ⟨h1, h2, h3⟩ := round64_of_le (xor na nb) hab0 hab hk hk2
  simp only [Float64.div, if_neg hb.ne', h1]
  refine ⟨⟨_, _, rfl, h2, h3⟩, ?_⟩
  rcases hab0.lt_or_eq with hpos | hzero
  · unfold roundQ
    have hnb : -(a / b) < 0 := by linarith
    cases na <;> cases nb <;>
      simp [Float64.val, hpos, hpos.le, not_lt.mpr hpos.le, neg_div, div_neg, hnb]
  · unfold roundQ
    cases na <;> cases nb <;>
      simp [Float64.val, ← hzero, roundMag_zero, neg_div, div_neg]

/-! ### The constants of the source as `float64` -/

theorem lit_1000 : Float64.lit 1000 = .finite false 1000 := by decide!

theorem lit_vat : Float64.lit 1.25 = .finite false (5 / 4) := by decide!

theorem lit_stateTariff : (Float64.lit 0.7610).BoundedBy 1 :=
  ⟨false, roundMag 0.7610, by decide!, by decide!, by decide!⟩

theorem lit_ewiiFees : (Float64.lit 0.0975).BoundedBy 1 :=
  ⟨false, roundMag 0.0975, by decide!, by decide!, by decide!⟩

theorem lit_tariffs_bounded :
    (Float64.lit 0.1126).BoundedBy 2 ∧ (Float64.lit 0.1689).BoundedBy 2 ∧
    (Float64.lit 0.3378).BoundedBy 2 ∧ (Float64.lit 0.4391).BoundedBy 2 ∧
    (Float64.lit 1.0133).BoundedBy 2 :=
  ⟨⟨false, roundMag 0.1126, by decide!, by decide!, by decide!⟩,
    ⟨false, roundMag 0.1689, by decide!, by decide!, by decide!⟩,
    ⟨false, roundMag 0.3378, by decide!, by decide!, by decide!⟩,
    ⟨false, roundMag 0.4391, by decide!, by decide!, by decide!⟩,
    ⟨false, roundMag 1.0133, by decide!, by decide!, by decide!⟩⟩

theorem selectTariffs_float64_summer (m : Int) (hm : 4 ≤ m ∧ m ≤ 9) :
    selectTariffs float64Ops m
      = [Float64.lit 0.1126, Float64.lit 0.1689, Float64.lit 0.4391] := by
  have hm2 : m ≥ 4 ∧ m ≤ 9 := hm
  simp only [selectTariffs, if_pos hm2, summerTariffs]
  rfl

theorem selectTariffs_float64_winter (m : Int) (hm : m < 4 ∨ 9 < m) :
    selectTariffs float64Ops m
      = [Float64.lit 0.1126, Float64.lit 0.3378, Float64.lit 1.0133] := by
  have hm2 : ¬ (m ≥ 4 ∧ m ≤ 9) := by omega
  simp only [selectTariffs, if_neg hm2, winterTariffs]
  rfl

/-- Every entry of either table is a finite value of magnitude at most 2. -/
theorem selectTariffs_float64_bounded (m : Int) :
    ∃ t0 t1 t2, selectTariffs float64Ops m = [t0, t1, t2] ∧
      t0.BoundedBy 2 ∧ t1.BoundedBy 2 ∧ t2.BoundedBy 2 := by
  obtain ⟨b1, b2, b3, b4, b5⟩ := lit_tariffs_bounded
  by_cases hm : 4 ≤ m ∧ m ≤ 9
  · exact ⟨_, _, _, selectTariffs_float64_summer m hm, b1, b2, b4⟩
  · exact ⟨_, _, _, selectTariffs_float64_winter m (by omega), b1, b3, b5⟩

theorem float64PriceVal_mono {x x' t t' : ℚ} (hx : x ≤ x') (ht : t ≤ t') :
    float64PriceVal x t ≤ float64PriceVal x' t' := by
  unfold float64PriceVal
  apply roundQ_mono
  apply mul_le_mul_of_nonneg_right _ (by norm_num)
  apply roundQ_mono
  apply add_le_add _ ht
  apply roundQ_mono
  apply add_le_add_right
  apply roundQ_mono
  apply add_le_add_right
  apply roundQ_mono
  exact div_le_div_of_nonneg_right hx (by norm_num)

/-- The `float64` price of a finite spot price `s` and a rate `t` of magnitude at
most 2 is finite, and its value is `float64PriceVal`. -/
theorem float64_price_bounded {s t : Float64} (hs : s.BoundedBy (2 ^ (1024 : Int)))
    (ht : t.BoundedBy 2) :
    (Float64.mul (Float64.add (Float64.add (Float64.add (Float64.div s (Float64.lit 1000))
      (Float64.lit 0.7610)) (Float64.lit 0.0975)) t) (Float64.lit 1.25)).BoundedBy
        (2 ^ (1019 : Int)) ∧
    (Float64.mul (Float64.add (Float64.add (Float64.add (Float64.div s (Float64.lit 1000))
      (Float64.lit 0.7610)) (Float64.lit 0.0975)) t) (Float64.lit 1.25)).val
        = float64PriceVal s.val t.val := by
  rw [lit_1000, lit_vat]
  obtain ⟨h0, v0⟩ := Float64.div_bounded (k := 1015) false hs (b := 1000) (by norm_num)
    (by norm_num) (by norm_num) (by norm_num)
  obtain ⟨h1, v1⟩ := Float64.add_bounded (k := 1016) h0 lit_stateTariff
    (by norm_num) (by norm_num) (by norm_num)
  obtain ⟨h2, v2⟩ := Float64.add_bounded (k := 1017) h1 lit_ewiiFees
    (by norm_num) (by norm_num) (by norm_num)
  obtain ⟨h3, v3⟩ := Float64.add_bounded (k := 1018) h2 ht
    (by norm_num) (by norm_num) (by norm_num)
  have hvat : (Float64.finite false (5 / 4)).BoundedBy (5 / 4) :=
    ⟨false, 5 / 4, rfl, by norm_num, le_refl _⟩
  obtain ⟨h4, v4⟩ := Float64.mul_bounded (k := 1019) h3 hvat
    (by norm_num) (by norm_num) (by norm_num)
  refine ⟨h4, ?_⟩
  rw [v4, v3, v2, v1, v0]
  simp only [float64PriceVal, Float64.val, Bool.false_eq_true, if_false]

theorem Float64.IsFinite.bounded {x : Float64} (h : x.IsFinite) :
    x.BoundedBy (2 ^ (1024 : Int)) := by
  obtain ⟨n, m, hx, h0, h1⟩ := h
  exact ⟨n, m, hx, h0, h1.le⟩

theorem Float64.BoundedBy.isFinite {x : Float64} {k : Int} (h : x.BoundedBy (2 ^ k))
    (hk : k ≤ 1023) : x.IsFinite := by
  obtain ⟨n, m, hx, h0, h1⟩ := h
  exact ⟨n, m, hx, h0, lt_of_le_of_lt h1 (zpow_lt_zpow_right₀ (by norm_num) (by omega))⟩

/-- The price the handler computes in `float64` for a finite spot price: finite,
with the value `float64PriceVal` of the spot price and the rate of the bracket. -/
theorem computePrice_float64 (d : Time) (hour : HourlyPrice Float64)
    (hs : hour.SpotPriceDKK.IsFinite) (t0 t1 t2 : Float64)
    (hT : selectTariffs float64Ops d.Month = [t0, t1, t2])
    (h0 : t0.BoundedBy 2) (h1 : t1.BoundedBy 2) (h2 : t2.BoundedBy 2) :
    ∃ p, computePrice float64Ops d hour = .ok p ∧ p.BoundedBy (2 ^ (1019 : Int)) ∧
      p.val = float64PriceVal hour.SpotPriceDKK.val
        (if d.Hour < 6 then t0 else if d.Hour < 17 then t1
          else if d.Hour < 21 then t2 else t1).val := by
  have ht : (if d.Hour < 6 then t0 else if d.Hour < 17 then t1
      else if d.Hour < 21 then t2 else t1).BoundedBy 2 := by
    split_ifs <;> assumption
  obtain ⟨hb, hv⟩ := float64_price_bounded hs.bounded ht
  exact ⟨_, computePrice_of_table float64Ops d hour t0 t1 t2 hT, hb, hv⟩

/-- The shape and the value of the string `fixed6` gives for a magnitude. -/
theorem fixed6_spec (neg : Bool) (mag : ℚ) (hmag : 0 ≤ mag) :
    ∃ (ip fp : List Char),
      (fixed6 neg mag).toList = (if neg then ['-'] else []) ++ ip ++ ['.'] ++ fp ∧
      ip ≠ [] ∧ (∀ c ∈ ip, isDigitChar c = true) ∧
      fp.length = 6 ∧ (∀ c ∈ fp, isDigitChar c = true) ∧
      |((decodeDigits ip : ℚ) + (decodeDigits fp : ℚ) / 1000000) - mag| ≤ 1 / 2000000 := by
  have hx : 0 ≤ mag * 1000000 := mul_nonneg hmag (by norm_num)
  obtain ⟨hr0, hrabs⟩ := roundHalfEven_spec (mag * 1000000) hx
  obtain ⟨n, hn⟩ : ∃ n : Nat, n = (roundHalfEven (mag * 1000000)).natAbs := ⟨_, rfl⟩
  have hcast : ((n : Int) : ℚ) = ((roundHalfEven (mag * 1000000) : Int) : ℚ) := by
    rw [hn, Int.natAbs_of_nonneg hr0]
  obtain ⟨hine, hiall, hival⟩ := toDigits_spec (n / 1000000)
  obtain ⟨_, hfall, hfval⟩ := toDigits_spec (n % 1000000)
  have hflen := toDigits_length_le_six (n % 1000000) (Nat.mod_lt _ (by decide))
  refine ⟨Nat.toDigits 10 (n / 1000000),
    List.replicate (6 - (Nat.toDigits 10 (n % 1000000)).length) '0'
      ++ Nat.toDigits 10 (n % 1000000), ?_, hine, hiall, ?_, ?_, ?_⟩
  · simp only [fixed6, ← hn, List.append_assoc]
    rfl
  · rw [List.length_append, List.length_replicate]
    omega
  · intro c hc
    rcases List.mem_append.mp hc with h | h
    · rw [List.eq_of_mem_replicate h]
      decide
    · exact hfall c h
  · rw [decodeDigits_append, decodeDigits_replicate_zero, hival, hfval, zero_mul, zero_add]
    have hsplit : ((n / 1000000 : Nat) : ℚ) + ((n % 1000000 : Nat) : ℚ) / 1000000
        = (n : ℚ) / 1000000 := by
      have h := Nat.div_add_mod n 1000000
      have h2 : (n : ℚ) = 1000000 * ((n / 1000000 : Nat) : ℚ) + ((n % 1000000 : Nat) : ℚ) := by
        exact_mod_cast h.symm
      rw [h2]
      ring
    rw [hsplit]
    have hnq : |(n : ℚ) - mag * 1000000| ≤ 1 / 2 := by
      have : (n : ℚ) = ((n : Int) : ℚ) := by norm_cast
      rw [this, hcast]
      exact hrabs
    rw [abs_le] at hnq ⊢
    constructor <;> linarith [hnq.1, hnq.2]

/-! ### The price in exact arithmetic -/

/-- In exact arithmetic the price is an affine function of the spot price with
slope 1.25/1000. -/
theorem exact_price_affine (hour1 hour2 : HourlyPrice ℚ) (d1 d2 : Time)
    (_h1 : timeParse hour1.HourUTC = some d1) (_h2 : timeParse hour2.HourUTC = some d2)
    (hm : d1.Month = d2.Month) (hh : d1.Hour = d2.Hour)
    (hs : hour1.SpotPriceDKK ≤ hour2.SpotPriceDKK) :
    ∃ p1 p2, computePrice exactOps d1 hour1 = .ok p1 ∧
      computePrice exactOps d2 hour2 = .ok p2 ∧ p1 ≤ p2 ∧
      p2 - p1 = 1.25 * (hour2.SpotPriceDKK - hour1.SpotPriceDKK) / 1000 := by
  obtain ⟨t0, t1, t2, hT⟩ := selectTariffs_cases exactOps d2.Month
  have hT1 : selectTariffs exactOps d1.Month = [t0, t1, t2] := by rw [hm, hT]
  refine ⟨_, _, computePrice_exact d1 hour1 _ _ _ hT1, computePrice_exact d2 hour2 _ _ _ hT,
    ?_, ?_⟩
  · rw [hh]
    linarith
  · rw [hh]
    ring

/-- A decimal constant of magnitude at most `2^1023` converts to a finite value. -/
theorem Float64.lit_isFinite (q : ℚ) (h : |q| ≤ 2 ^ (1023 : Int)) : (Float64.lit q).IsFinite := by
  obtain ⟨h1, h2, h3⟩ := round64_of_le (decide (q < 0)) (abs_nonneg q) h (by norm_num) le_rfl
  exact Float64.BoundedBy.isFinite ⟨_, _, h1, h2, h3⟩ le_rfl

end Lemmas

/-! ## The price formula -/

section Claims

variable {F : Type}

/-- C1: for a record whose `HourUTC` parses to `d`, the value of `pricePrKwh`
before formatting is `(SpotPriceDKK/1000 + 0.7610 + 0.0975 + t) * 1.25`, with `t`
the one grid-tariff rate the specification selects for the month and hour of
`d`; the VAT factor multiplies the whole sum, and the entry appended to the
output carries that value formatted. -/
theorem computePrice_eq_spec_formula (A : Float64Ops F) (l : Location) (hour : HourlyPrice F)
    (d : Time) (hd : timeParse hour.HourUTC = some d) :
    ∃ t, specGridTariff A d.Month d.Hour = some t ∧
      computePrice A d hour = .ok (A.mul (A.add (A.add (A.add
        (A.div hour.SpotPriceDKK (A.lit 1000)) (A.lit 0.7610)) (A.lit 0.0975)) t) (A.lit 1.25)) ∧
      transformRecord A l hour = .ok ⟨(d.In l).Format, A.sprintf (A.mul (A.add (A.add (A.add
        (A.div hour.SpotPriceDKK (A.lit 1000)) (A.lit 0.7610)) (A.lit 0.0975)) t) (A.lit 1.25))⟩ := by
  have hr := Time.Hour_range d
  have key : ∃ t, specGridTariff A d.Month d.Hour = some t ∧
      computePrice A d hour = .ok (A.mul (A.add (A.add (A.add
        (A.div hour.SpotPriceDKK (A.lit 1000)) (A.lit 0.7610)) (A.lit 0.0975)) t) (A.lit 1.25)) := by
    by_cases hm : 4 ≤ d.Month ∧ d.Month ≤ 9
    · have hT : selectTariffs A d.Month = [A.lit 0.1126, A.lit 0.1689, A.lit 0.4391] := by
        have hm2 : d.Month ≥ 4 ∧ d.Month ≤ 9 := hm
        simp only [selectTariffs, if_pos hm2, summerTariffs]
      rw [computePrice_of_table A d hour _ _ _ hT]
      simp only [specGridTariff, specSeasonTable, if_pos hm]
      by_cases h6 : d.Hour < 6
      · exact ⟨_, by rw [if_pos ⟨hr.1, h6⟩], by rw [if_pos h6]⟩
      · by_cases h17 : d.Hour < 17
        · refine ⟨_, ?_, by rw [if_neg h6, if_pos h17]⟩
          rw [if_neg (by omega), if_pos (by omega)]
        · by_cases h21 : d.Hour < 21
          · refine ⟨_, ?_, by rw [if_neg h6, if_neg h17, if_pos h21]⟩
            rw [if_neg (by omega), if_neg (by omega), if_pos (by omega)]
          · refine ⟨_, ?_, by rw [if_neg h6, if_neg h17, if_neg h21]⟩
            rw [if_neg (by omega), if_neg (by omega), if_neg (by omega), if_pos (by omega)]
    · have hT : selectTariffs A d.Month = [A.lit 0.1126, A.lit 0.3378, A.lit 1.0133] := by
        have hm2 : ¬ (d.Month ≥ 4 ∧ d.Month ≤ 9) := hm
        simp only [selectTariffs, if_neg hm2, winterTariffs]
      rw [computePrice_of_table A d hour _ _ _ hT]
      simp only [specGridTariff, specSeasonTable, if_neg hm]
      by_cases h6 : d.Hour < 6
      · exact ⟨_, by rw [if_pos ⟨hr.1, h6⟩], by rw [if_pos h6]⟩
      · by_cases h17 : d.Hour < 17
        · refine ⟨_, ?_, by rw [if_neg h6, if_pos h17]⟩
          rw [if_neg (by omega), if_pos (by omega)]
        · by_cases h21 : d.Hour < 21
          · refine ⟨_, ?_, by rw [if_neg h6, if_neg h17, if_pos h21]⟩
            rw [if_neg (by omega), if_neg (by omega), if_pos (by omega)]
          · refine ⟨_, ?_, by rw [if_neg h6, if_neg h17, if_neg h21]⟩
            rw [if_neg (by omega), if_neg (by omega), if_neg (by omega), if_pos (by omega)]
  obtain ⟨t, ht, hp⟩ := key
  obtain ⟨p, hp2, hrec⟩ := transformRecord_of_parse A l hour d hd
  rw [hp] at hp2
  cases hp2
  exact ⟨t, ht, hp, hrec⟩

/-- Witness for C1: the record for noon UTC of 15 June 2024, in exact arithmetic. -/
theorem computePrice_eq_spec_formula_witness :
    timeParse juneNoon.HourUTC = some (Date 2024 6 15 12 0 0 UTC) ∧
    ∃ t, specGridTariff exactOps (Date 2024 6 15 12 0 0 UTC).Month
        (Date 2024 6 15 12 0 0 UTC).Hour = some t ∧
      computePrice exactOps (Date 2024 6 15 12 0 0 UTC) juneNoon =
        .ok (exactOps.mul (exactOps.add (exactOps.add (exactOps.add
          (exactOps.div juneNoon.SpotPriceDKK (exactOps.lit 1000)) (exactOps.lit 0.7610))
          (exactOps.lit 0.0975)) t) (exactOps.lit 1.25)) ∧
      transformRecord exactOps europeCopenhagen juneNoon =
        .ok ⟨((Date 2024 6 15 12 0 0 UTC).In europeCopenhagen).Format,
          exactOps.sprintf (exactOps.mul (exactOps.add (exactOps.add (exactOps.add
          (exactOps.div juneNoon.SpotPriceDKK (exactOps.lit 1000)) (exactOps.lit 0.7610))
          (exactOps.lit 0.0975)) t) (exactOps.lit 1.25))⟩ :=
  ⟨rfl, computePrice_eq_spec_formula exactOps europeCopenhagen juneNoon
    (Date 2024 6 15 12 0 0 UTC) rfl⟩

/-! ## Output order, length and failure -/

/-- C2: when every timestamp parses, the handler returns, and its output list is
the reverse of the list of per-record transformations taken in input order:
output element `i` is the transformation of input element `n - 1 - i`. -/
theorem handler_output_is_reverse (A : Float64Ops F) (l : Location)
    (prices : List (HourlyPrice F)) (hwf : ∀ r ∈ prices, (timeParse r.HourUTC).isSome) :
    ∃ resp, handler A l prices = .ok resp ∧
      resp.SpotPrices.map Except.ok = (prices.map (transformRecord A l)).reverse ∧
      ∀ i, i < prices.length → ∃ r e, prices[prices.length - 1 - i]? = some r ∧
        resp.SpotPrices[i]? = some e ∧ transformRecord A l r = .ok e := by
  obtain ⟨out, hout, hmap⟩ := loop_ok A l prices hwf []
  have hlen : out.length = prices.length := by
    have := congrArg List.length hmap
    simpa using this
  refine ⟨⟨out.reverse⟩, ?_, ?_, ?_⟩
  · simp only [handler, hout, List.nil_append]
  · simp only [List.map_reverse, hmap]
  · intro i hi
    have hj : prices.length - 1 - i < prices.length := by omega
    have hj2 : prices.length - 1 - i < out.length := by omega
    refine ⟨prices[prices.length - 1 - i], out[prices.length - 1 - i], ?_, ?_, ?_⟩
    · exact List.getElem?_eq_getElem hj
    · show out.reverse[i]? = some _
      rw [List.getElem?_reverse (by omega), hlen]
      exact List.getElem?_eq_getElem hj2
    · have h1 : (out.map Except.ok)[prices.length - 1 - i]? =
          (prices.map (transformRecord A l))[prices.length - 1 - i]? := by rw [hmap]
      rw [List.getElem?_map, List.getElem?_map, List.getElem?_eq_getElem hj,
        List.getElem?_eq_getElem hj2] at h1
      simp only [Option.map_some', Option.some.injEq] at h1
      exact h1.symm

/-- Witness for C2: three records in chronological order. -/
theorem handler_output_is_reverse_witness :
    (∀ r ∈ [juneNoon, julyNight, decemberPeak], (timeParse r.HourUTC).isSome) ∧
    ∃ resp, handler exactOps europeCopenhagen [juneNoon, julyNight, decemberPeak] = .ok resp ∧
      resp.SpotPrices.map Except.ok =
        ([juneNoon, julyNight, decemberPeak].map
          (transformRecord exactOps europeCopenhagen)).reverse ∧
      ∀ i, i < [juneNoon, julyNight, decemberPeak].length →
        ∃ r e, [juneNoon, julyNight, decemberPeak][
            [juneNoon, julyNight, decemberPeak].length - 1 - i]? = some r ∧
          resp.SpotPrices[i]? = some e ∧ transformRecord exactOps europeCopenhagen r = .ok e :=
  ⟨by decide, handler_output_is_reverse exactOps europeCopenhagen
    [juneNoon, julyNight, decemberPeak] (by decide)⟩

/-- C3: when every timestamp parses, the handler returns exactly one output entry
per input record, so 168 records give 168 entries. -/
theorem handler_output_length (A : Float64Ops F) (l : Location)
    (prices : List (HourlyPrice F)) (hwf : ∀ r ∈ prices, (timeParse r.HourUTC).isSome) :
    ∃ resp, handler A l prices = .ok resp ∧ resp.SpotPrices.length = prices.length ∧
      (prices.length = 168 → resp.SpotPrices.length = 168) := by
  obtain ⟨out, hout, hmap⟩ := loop_ok A l prices hwf []
  have hlen : out.length = prices.length := by
    have := congrArg List.length hmap
    simpa using this
  refine ⟨⟨out.reverse⟩, ?_, ?_, ?_⟩
  · simp only [handler, hout, List.nil_append]
  · simp only [List.length_reverse, hlen]
  · intro h
    simp only [List.length_reverse, hlen, h]

/-- Witness for C3: a week of 168 records. -/
theorem handler_output_length_witness :
    (∀ r ∈ List.replicate 168 juneNoon, (timeParse r.HourUTC).isSome) ∧
    ∃ resp, handler exactOps europeCopenhagen (List.replicate 168 juneNoon) = .ok resp ∧
      resp.SpotPrices.length = (List.replicate 168 juneNoon).length ∧
      ((List.replicate 168 juneNoon).length = 168 → resp.SpotPrices.length = 168) :=
  ⟨fun r hr => by rw [List.eq_of_mem_replicate hr]; decide,
    handler_output_length exactOps europeCopenhagen (List.replicate 168 juneNoon)
      (fun r hr => by rw [List.eq_of_mem_replicate hr]; decide)⟩

/-- C5 (not met by the code): when `json.Unmarshal` reports an error for the body,
`fetchPriceData` still returns to its caller, with whatever record list the
decoder left in `priceDataResponse`; it never ends in `log.Fatalln`. -/
theorem fetchPriceData_returns_on_decode_error (body : String)
    (jsonUnmarshal : String → PriceDataResponse F → Option String × PriceDataResponse F)
    (err : String) (_herr : (jsonUnmarshal body ⟨0, "", 0, "", []⟩).1 = some err) :
    fetchPriceData (.ok (.ok body)) jsonUnmarshal
        = .returned (jsonUnmarshal body ⟨0, "", 0, "", []⟩).2.Records ∧
      ∀ e, fetchPriceData (.ok (.ok body)) jsonUnmarshal ≠ .fatal e := by
  refine ⟨rfl, ?_⟩
  intro e h
  simp only [fetchPriceData] at h
  cases h

/-- Witness for C5: an HTML error page as body; the caller receives the empty
list, and the handler answers with an empty `spot_prices`. -/
theorem fetchPriceData_returns_on_decode_error_witness :
    (rejectingUnmarshal ℚ "<html>503 Service Unavailable</html>" ⟨0, "", 0, "", []⟩).1
        = some "invalid character '<' looking for beginning of value" ∧
    (fetchPriceData (.ok (.ok "<html>503 Service Unavailable</html>")) (rejectingUnmarshal ℚ)
        = .returned (rejectingUnmarshal ℚ "<html>503 Service Unavailable</html>"
            ⟨0, "", 0, "", []⟩).2.Records ∧
      ∀ e, fetchPriceData (.ok (.ok "<html>503 Service Unavailable</html>"))
        (rejectingUnmarshal ℚ) ≠ .fatal e) ∧
    (rejectingUnmarshal ℚ "<html>503 Service Unavailable</html>" ⟨0, "", 0, "", []⟩).2.Records
        = [] ∧
    handler exactOps europeCopenhagen [] = .ok ⟨[]⟩ :=
  ⟨rfl, fetchPriceData_returns_on_decode_error "<html>503 Service Unavailable</html>"
    (rejectingUnmarshal ℚ) "invalid character '<' looking for beginning of value" rfl,
    rfl, rfl⟩

/-! ## Season and bracket selection -/

/-- C6: for a record whose `HourUTC` parses to `d`, the month tested is the month of
the UTC date of `d`; months 4 to 9 give the table [0.1126, 0.1689, 0.4391] and
every other month gives [0.1126, 0.3378, 1.0133], and the price is built from
an entry of that table; the location used for `start_time` has no influence on
the price. -/
theorem tariff_table_by_utc_month (A : Float64Ops F) (hour : HourlyPrice F) (d : Time)
    (hd : timeParse hour.HourUTC = some d) :
    d.Month = (civilFromDays (d.unixSec / 86400)).2.1 ∧
    (4 ≤ d.Month ∧ d.Month ≤ 9 →
      selectTariffs A d.Month = [A.lit 0.1126, A.lit 0.1689, A.lit 0.4391] ∧
      computePrice A d hour = .ok (A.mul (A.add (A.add (A.add
        (A.div hour.SpotPriceDKK (A.lit 1000)) (A.lit 0.7610)) (A.lit 0.0975))
        (if d.Hour < 6 then A.lit 0.1126 else if d.Hour < 17 then A.lit 0.1689
          else if d.Hour < 21 then A.lit 0.4391 else A.lit 0.1689)) (A.lit 1.25))) ∧
    (d.Month < 4 ∨ 9 < d.Month →
      selectTariffs A d.Month = [A.lit 0.1126, A.lit 0.3378, A.lit 1.0133] ∧
      computePrice A d hour = .ok (A.mul (A.add (A.add (A.add
        (A.div hour.SpotPriceDKK (A.lit 1000)) (A.lit 0.7610)) (A.lit 0.0975))
        (if d.Hour < 6 then A.lit 0.1126 else if d.Hour < 17 then A.lit 0.3378
          else if d.Hour < 21 then A.lit 1.0133 else A.lit 0.3378)) (A.lit 1.25))) ∧
    ∀ l₁ l₂ : Location, (transformRecord A l₁ hour).map FrontendHourlyPrice.Price
      = (transformRecord A l₂ hour).map FrontendHourlyPrice.Price := by
  refine ⟨?_, ?_, ?_, ?_⟩
  · have hloc := timeParse_loc hd
    simp only [Time.Month, Time.abs, hloc, UTC, add_zero]
  · intro hm
    have hm2 : d.Month ≥ 4 ∧ d.Month ≤ 9 := hm
    have hT : selectTariffs A d.Month = [A.lit 0.1126, A.lit 0.1689, A.lit 0.4391] := by
      simp only [selectTariffs, if_pos hm2, summerTariffs]
    exact ⟨hT, computePrice_of_table A d hour _ _ _ hT⟩
  · intro hm
    have hm2 : ¬ (d.Month ≥ 4 ∧ d.Month ≤ 9) := by omega
    have hT : selectTariffs A d.Month = [A.lit 0.1126, A.lit 0.3378, A.lit 1.0133] := by
      simp only [selectTariffs, if_neg hm2, winterTariffs]
    exact ⟨hT, computePrice_of_table A d hour _ _ _ hT⟩
  · intro l₁ l₂
    obtain ⟨p, hp, h₁⟩ := transformRecord_of_parse A l₁ hour d hd
    obtain ⟨q, hq, h₂⟩ := transformRecord_of_parse A l₂ hour d hd
    rw [hq] at hp
    cases hp
    rw [h₁, h₂]
    simp only [Except.map]

/-- Witness for C6: 23:30 UTC on 31 March 2024 is already 1 April in Copenhagen, yet
the record is priced with the winter table of UTC month 3. -/
theorem tariff_table_by_utc_month_witness :
    timeParse marchLate.HourUTC = some (Date 2024 3 31 23 30 0 UTC) ∧
    ((Date 2024 3 31 23 30 0 UTC).In europeCopenhagen).Month = 4 ∧
    (Date 2024 3 31 23 30 0 UTC).Month = 3 ∧
    selectTariffs exactOps (Date 2024 3 31 23 30 0 UTC).Month
      = [exactOps.lit 0.1126, exactOps.lit 0.3378, exactOps.lit 1.0133] :=
  ⟨rfl, by decide, by decide,
    ((tariff_table_by_utc_month exactOps marchLate (Date 2024 3 31 23 30 0 UTC) rfl).2.2.1
      (Or.inl (by decide))).1⟩

/-- C7: for a record whose `HourUTC` parses to `d`, the rate added is picked by the
hour of the UTC clock of `d`: entry 0 of the table for hours 0-5, entry 1 for
hours 6-16, entry 2 for hours 17-20 and entry 1 for hours 21-23. -/
theorem tariff_rate_by_utc_hour (A : Float64Ops F) (hour : HourlyPrice F) (d : Time)
    (hd : timeParse hour.HourUTC = some d) :
    d.Hour = d.unixSec % 86400 / 3600 ∧ 0 ≤ d.Hour ∧ d.Hour ≤ 23 ∧
    ∃ t0 t1 t2, selectTariffs A d.Month = [t0, t1, t2] ∧
      (0 ≤ d.Hour ∧ d.Hour < 6 → computePrice A d hour = .ok (A.mul (A.add (A.add (A.add
        (A.div hour.SpotPriceDKK (A.lit 1000)) (A.lit 0.7610)) (A.lit 0.0975)) t0)
        (A.lit 1.25))) ∧
      (6 ≤ d.Hour ∧ d.Hour < 17 → computePrice A d hour = .ok (A.mul (A.add (A.add (A.add
        (A.div hour.SpotPriceDKK (A.lit 1000)) (A.lit 0.7610)) (A.lit 0.0975)) t1)
        (A.lit 1.25))) ∧
      (17 ≤ d.Hour ∧ d.Hour < 21 → computePrice A d hour = .ok (A.mul (A.add (A.add (A.add
        (A.div hour.SpotPriceDKK (A.lit 1000)) (A.lit 0.7610)) (A.lit 0.0975)) t2)
        (A.lit 1.25))) ∧
      (21 ≤ d.Hour ∧ d.Hour ≤ 23 → computePrice A d hour = .ok (A.mul (A.add (A.add (A.add
        (A.div hour.SpotPriceDKK (A.lit 1000)) (A.lit 0.7610)) (A.lit 0.0975)) t1)
        (A.lit 1.25))) := by
  have hr := Time.Hour_range d
  refine ⟨?_, hr.1, hr.2, ?_⟩
  · have hloc := timeParse_loc hd
    simp only [Time.Hour, Time.abs, hloc, UTC, add_zero]
  · obtain ⟨t0, t1, t2, hT⟩ := selectTariffs_cases A d.Month
    have hp := computePrice_of_table A d hour t0 t1 t2 hT
    refine ⟨t0, t1, t2, hT, ?_, ?_, ?_, ?_⟩
    · intro h
      rw [hp, if_pos h.2]
    · intro h
      rw [hp, if_neg (by omega), if_pos h.2]
    · intro h
      rw [hp, if_neg (by omega), if_neg (by omega), if_pos h.2]
    · intro h
      rw [hp, if_neg (by omega), if_neg (by omega), if_neg (by omega)]

/-- Witness for C7: the record for 18:00 UTC of 15 December 2024 gets entry 2 of its
table. -/
theorem tariff_rate_by_utc_hour_witness :
    timeParse decemberPeak.HourUTC = some (Date 2024 12 15 18 0 0 UTC) ∧
    (Date 2024 12 15 18 0 0 UTC).Hour = 18 ∧
    ∃ t0 t1 t2, selectTariffs exactOps (Date 2024 12 15 18 0 0 UTC).Month = [t0, t1, t2] ∧
      computePrice exactOps (Date 2024 12 15 18 0 0 UTC) decemberPeak
        = .ok (exactOps.mul (exactOps.add (exactOps.add (exactOps.add
          (exactOps.div decemberPeak.SpotPriceDKK (exactOps.lit 1000)) (exactOps.lit 0.7610))
          (exactOps.lit 0.0975)) t2) (exactOps.lit 1.25)) := by
  obtain ⟨_, _, _, t0, t1, t2, hT, _, _, h2, _⟩ :=
    tariff_rate_by_utc_hour exactOps decemberPeak (Date 2024 12 15 18 0 0 UTC) rfl
  exact ⟨rfl, by decide, t0, t1, t2, hT, h2 (by decide)⟩

/-! ## The two worked examples of the specification -/

/-- C8: a record whose timestamp parses to UTC hour 3 of a day in July is priced
with the summer table and its low rate, at
`(s/1000 + 0.7610 + 0.0975 + 0.1126) * 1.25` for every spot price `s`. -/
theorem july_hour3_price (A : Float64Ops F) (hour : HourlyPrice F) (d : Time)
    (_hd : timeParse hour.HourUTC = some d) (hm : d.Month = 7) (hh : d.Hour = 3) :
    selectTariffs A d.Month = summerTariffs A ∧
    index (selectTariffs A d.Month) 0 = .ok (A.lit 0.1126) ∧
    computePrice A d hour = .ok (A.mul (A.add (A.add (A.add
      (A.div hour.SpotPriceDKK (A.lit 1000)) (A.lit 0.7610)) (A.lit 0.0975)) (A.lit 0.1126))
      (A.lit 1.25)) := by
  have hT : selectTariffs A d.Month = summerTariffs A := by
    have : d.Month ≥ 4 ∧ d.Month ≤ 9 := by omega
    simp only [selectTariffs, if_pos this]
  refine ⟨hT, ?_, ?_⟩
  · rw [hT]
    rfl
  · rw [computePrice_of_table A d hour _ _ _ (hT.trans rfl), if_pos (by omega)]

/-- Witness for C8: the record for 03:00 UTC of 10 July 2024. -/
theorem july_hour3_price_witness :
    timeParse julyNight.HourUTC = some (Date 2024 7 10 3 0 0 UTC) ∧
    (Date 2024 7 10 3 0 0 UTC).Month = 7 ∧ (Date 2024 7 10 3 0 0 UTC).Hour = 3 ∧
    selectTariffs exactOps (Date 2024 7 10 3 0 0 UTC).Month = summerTariffs exactOps ∧
    index (selectTariffs exactOps (Date 2024 7 10 3 0 0 UTC).Month) 0
      = .ok (exactOps.lit 0.1126) ∧
    computePrice exactOps (Date 2024 7 10 3 0 0 UTC) julyNight
      = .ok (exactOps.mul (exactOps.add (exactOps.add (exactOps.add
        (exactOps.div julyNight.SpotPriceDKK (exactOps.lit 1000)) (exactOps.lit 0.7610))
        (exactOps.lit 0.0975)) (exactOps.lit 0.1126)) (exactOps.lit 1.25)) :=
  ⟨rfl, by decide, by decide,
    july_hour3_price exactOps julyNight (Date 2024 7 10 3 0 0 UTC) rfl (by decide) (by decide)⟩

/-- C9: a record whose timestamp parses to UTC hour 18 of a day in December is
priced with the winter table and its peak rate, at
`(s/1000 + 0.7610 + 0.0975 + 1.0133) * 1.25` for every spot price `s`. -/
theorem december_hour18_price (A : Float64Ops F) (hour : HourlyPrice F) (d : Time)
    (_hd : timeParse hour.HourUTC = some d) (hm : d.Month = 12) (hh : d.Hour = 18) :
    selectTariffs A d.Month = winterTariffs A ∧
    index (selectTariffs A d.Month) 2 = .ok (A.lit 1.0133) ∧
    computePrice A d hour = .ok (A.mul (A.add (A.add (A.add
      (A.div hour.SpotPriceDKK (A.lit 1000)) (A.lit 0.7610)) (A.lit 0.0975)) (A.lit 1.0133))
      (A.lit 1.25)) := by
  have hT : selectTariffs A d.Month = winterTariffs A := by
    have : ¬ (d.Month ≥ 4 ∧ d.Month ≤ 9) := by omega
    simp only [selectTariffs, if_neg this]
  refine ⟨hT, ?_, ?_⟩
  · rw [hT]
    rfl
  · rw [computePrice_of_table A d hour _ _ _ (hT.trans rfl), if_neg (by omega),
      if_neg (by omega), if_pos (by omega)]

/-- Witness for C9: the record for 18:00 UTC of 15 December 2024. -/
theorem december_hour18_price_witness :
    timeParse decemberPeak.HourUTC = some (Date 2024 12 15 18 0 0 UTC) ∧
    (Date 2024 12 15 18 0 0 UTC).Month = 12 ∧ (Date 2024 12 15 18 0 0 UTC).Hour = 18 ∧
    selectTariffs exactOps (Date 2024 12 15 18 0 0 UTC).Month = winterTariffs exactOps ∧
    index (selectTariffs exactOps (Date 2024 12 15 18 0 0 UTC).Month) 2
      = .ok (exactOps.lit 1.0133) ∧
    computePrice exactOps (Date 2024 12 15 18 0 0 UTC) decemberPeak
      = .ok (exactOps.mul (exactOps.add (exactOps.add (exactOps.add
        (exactOps.div decemberPeak.SpotPriceDKK (exactOps.lit 1000)) (exactOps.lit 0.7610))
        (exactOps.lit 0.0975)) (exactOps.lit 1.0133)) (exactOps.lit 1.25)) :=
  ⟨rfl, by decide, by decide,
    december_hour18_price exactOps decemberPeak (Date 2024 12 15 18 0 0 UTC) rfl
      (by decide) (by decide)⟩

/-! ## Conversion to Copenhagen time -/

/-- C10: a record with `HourUTC` "2024-06-15T12:00:00" gets the `start_time`
"2024-06-15T14:00:00+02:00": the parsed instant is kept, Copenhagen is at
+02:00 at that instant, and the local clock reading 14:00:00 less the two
hours of offset is the instant of the input. -/
theorem june_start_time_copenhagen (A : Float64Ops F) (hourDK priceArea : String)
    (spotPriceDKK spotPriceEUR : F) :
    ∃ d, timeParse "2024-06-15T12:00:00" = some d ∧ d.unixSec = 1718452800 ∧
      (d.In europeCopenhagen).unixSec = d.unixSec ∧
      europeCopenhagen.lookup d.unixSec = 7200 ∧
      (d.In europeCopenhagen).Format = "2024-06-15T14:00:00+02:00" ∧
      daysFromCivil 2024 6 15 * 86400 + 14 * 3600 + 0 * 60 + 0 - 7200 = d.unixSec ∧
      ∃ p, transformRecord A europeCopenhagen
          ⟨"2024-06-15T12:00:00", hourDK, priceArea, spotPriceDKK, spotPriceEUR⟩
        = .ok ⟨"2024-06-15T14:00:00+02:00", p⟩ := by
  refine ⟨Date 2024 6 15 12 0 0 UTC, rfl, by decide, rfl, by decide, by decide, by decide, ?_⟩
  obtain ⟨p, _, hp⟩ := transformRecord_of_parse A europeCopenhagen
    ⟨"2024-06-15T12:00:00", hourDK, priceArea, spotPriceDKK, spotPriceEUR⟩
    (Date 2024 6 15 12 0 0 UTC) rfl
  refine ⟨A.sprintf p, ?_⟩
  rw [hp]
  have hf : ((Date 2024 6 15 12 0 0 UTC).In europeCopenhagen).Format
      = "2024-06-15T14:00:00+02:00" := by decide
  rw [hf]

/-! ## The hour brackets: reachability and exclusiveness -/

/-- C12: on every hour of the day 0..23, which is all a parsed timestamp can have,
the code's conditions with the bound `<= 24` and the normalised ones with
`< 24` agree (they differ at 24, which is never reached), and the price computed
with either is the same. -/
theorem last_bracket_inclusive_bound_is_dead (A : Float64Ops F) (hour : HourlyPrice F)
    (d : Time) (_hd : timeParse hour.HourUTC = some d) :
    (0 ≤ d.Hour ∧ d.Hour ≤ 23) ∧ d.Hour ≠ 24 ∧
    ((d.Hour ≥ 21 ∧ d.Hour ≤ 24) ↔ (d.Hour ≥ 21 ∧ d.Hour < 24)) ∧
    (∀ h : Int, 0 ≤ h → h ≤ 23 → bracketConditions h = normalisedBracketConditions h) ∧
    bracketConditions 24 ≠ normalisedBracketConditions 24 ∧
    bracketConditions d.Hour = normalisedBracketConditions d.Hour ∧
    computePrice A d hour = computePriceNormalised A d hour := by
  have hr := Time.Hour_range d
  have hall : ∀ h : Int, 0 ≤ h → h ≤ 23 →
      bracketConditions h = normalisedBracketConditions h := by
    intro h _ h23
    have e : (h ≥ 21 ∧ h ≤ 24) ↔ (h ≥ 21 ∧ h < 24) := by omega
    simp only [bracketConditions, normalisedBracketConditions, e]
  refine ⟨hr, by omega, by omega, hall, by decide, hall _ hr.1 hr.2, ?_⟩
  obtain ⟨t0, t1, t2, hT⟩ := selectTariffs_cases A d.Month
  rw [computePrice_of_table A d hour t0 t1 t2 hT,
    computePriceNormalised_of_table A d hour t0 t1 t2 hT]

/-- Witness for C12: the record for 22:00 UTC of 15 June 2024, in the last bracket. -/
theorem last_bracket_inclusive_bound_is_dead_witness :
    timeParse juneLate.HourUTC = some (Date 2024 6 15 22 0 0 UTC) ∧
    (Date 2024 6 15 22 0 0 UTC).Hour = 22 ∧
    bracketConditions (Date 2024 6 15 22 0 0 UTC).Hour
      = normalisedBracketConditions (Date 2024 6 15 22 0 0 UTC).Hour ∧
    computePrice exactOps (Date 2024 6 15 22 0 0 UTC) juneLate
      = computePriceNormalised exactOps (Date 2024 6 15 22 0 0 UTC) juneLate :=
  ⟨rfl, by decide,
    (last_bracket_inclusive_bound_is_dead exactOps juneLate
      (Date 2024 6 15 22 0 0 UTC) rfl).2.2.2.2.2.1,
    (last_bracket_inclusive_bound_is_dead exactOps juneLate
      (Date 2024 6 15 22 0 0 UTC) rfl).2.2.2.2.2.2⟩

/-- C13: on every hour of the day 0..23 exactly one of the four independent
conditions holds, so for a record whose timestamp parses the four `if`
statements add exactly one rate of the table to the price: never none, never
two. -/
theorem exactly_one_bracket (A : Float64Ops F) (hour : HourlyPrice F) (d : Time)
    (_hd : timeParse hour.HourUTC = some d) :
    (∀ h : Int, 0 ≤ h → h ≤ 23 → (bracketConditions h).count true = 1) ∧
    (bracketConditions d.Hour).count true = 1 ∧
    ∃ t, addedRates (selectTariffs A d.Month) d.Hour = [t] ∧
      t ∈ selectTariffs A d.Month ∧
      computePrice A d hour = .ok (A.mul (A.add (A.add (A.add
        (A.div hour.SpotPriceDKK (A.lit 1000)) (A.lit 0.7610)) (A.lit 0.0975)) t)
        (A.lit 1.25)) := by
  have hr := Time.Hour_range d
  refine ⟨bracketConditions_count, bracketConditions_count _ hr.1 hr.2, ?_⟩
  obtain ⟨t0, t1, t2, hT⟩ := selectTariffs_cases A d.Month
  refine ⟨_, ?_, ?_, computePrice_of_table A d hour t0 t1 t2 hT⟩
  · rw [hT, addedRates_of_table t0 t1 t2 _ hr.1 hr.2]
  · rw [hT]
    split_ifs <;> simp

/-- Witness for C13: the record for 18:00 UTC of 15 December 2024 has the third
condition true and the other three false. -/
theorem exactly_one_bracket_witness :
    timeParse decemberPeak.HourUTC = some (Date 2024 12 15 18 0 0 UTC) ∧
    bracketConditions (Date 2024 12 15 18 0 0 UTC).Hour = [false, false, true, false] ∧
    (bracketConditions (Date 2024 12 15 18 0 0 UTC).Hour).count true = 1 :=
  ⟨rfl, by decide,
    (exactly_one_bracket exactOps decemberPeak (Date 2024 12 15 18 0 0 UTC) rfl).2.1⟩

/-! ## Timestamps that are not of the layout's shape -/

/-- C11: for a record whose timestamp parses and whose spot price is a finite
`float64`, the computed price is finite and the output price string is an
optional minus sign, one or more digits, a decimal point and exactly six
digits, holds no exponent letter, and the number it denotes is within half a
unit of the sixth decimal place of the computed `float64` price: the price
rounded to six decimal places. -/
theorem price_string_is_fixed_point (l : Location) (hour : HourlyPrice Float64) (d : Time)
    (hd : timeParse hour.HourUTC = some d) (hs : hour.SpotPriceDKK.IsFinite) :
    ∃ p e, computePrice float64Ops d hour = .ok p ∧ p.IsFinite ∧
      transformRecord float64Ops l hour = .ok e ∧
      ∃ (neg : Bool) (ip fp : List Char),
        e.Price.toList = (if neg then ['-'] else []) ++ ip ++ ['.'] ++ fp ∧
        ip ≠ [] ∧ (∀ c ∈ ip, isDigitChar c = true) ∧
        fp.length = 6 ∧ (∀ c ∈ fp, isDigitChar c = true) ∧
        (∀ c ∈ e.Price.toList, c ≠ 'e' ∧ c ≠ 'E') ∧
        |(if neg then -1 else 1) * ((decodeDigits ip : ℚ) + (decodeDigits fp : ℚ) / 1000000)
          - p.val| ≤ 1 / 2000000 := by
  obtain ⟨t0, t1, t2, hT, b0, b1, b2⟩ := selectTariffs_float64_bounded d.Month
  obtain ⟨p, hp, hb, _⟩ := computePrice_float64 d hour hs t0 t1 t2 hT b0 b1 b2
  obtain ⟨p', hp', he⟩ := transformRecord_of_parse float64Ops l hour d hd
  rw [hp] at hp'
  cases hp'
  have hfin := hb.isFinite (by norm_num)
  obtain ⟨neg, mag, rfl, hmag, _⟩ := hb
  obtain ⟨ip, fp, hstr, hine, hiall, hflen, hfall, hval⟩ := fixed6_spec neg mag hmag
  have hprice : float64Ops.sprintf (Float64.finite neg mag) = fixed6 neg mag := rfl
  rw [hprice] at he
  refine ⟨_, _, hp, hfin, he, neg, ip, fp, hstr, hine, hiall, hflen, hfall, ?_, ?_⟩
  · intro c hc
    have hc2 : c ∈ (if neg then ['-'] else []) ++ ip ++ ['.'] ++ fp := by
      rw [← hstr]
      exact hc
    have hdig : isDigitChar c = true → c ≠ 'e' ∧ c ≠ 'E' := by
      intro h
      constructor
      · rintro rfl
        exact absurd h (by decide)
      · rintro rfl
        exact absurd h (by decide)
    rcases List.mem_append.mp hc2 with h | h
    · rcases List.mem_append.mp h with h | h
      · rcases List.mem_append.mp h with h | h
        · cases neg
          · cases h
          · rw [List.mem_singleton.mp h]
            decide
        · exact hdig (hiall c h)
      · rw [List.mem_singleton.mp h]
        decide
    · exact hdig (hfall c h)
  · rw [abs_le] at hval ⊢
    cases neg
    · simp only [Float64.val, Bool.false_eq_true, if_false, one_mul]
      exact hval
    · simp only [Float64.val, if_true]
      constructor <;> linarith [hval.1, hval.2]

/-- Witness for C11: the record for noon UTC of 15 June 2024 with spot price 500.03,
whose entry is evaluated to the price string "1.909287". -/
theorem price_string_is_fixed_point_witness :
    timeParse juneNoon64.HourUTC = some (Date 2024 6 15 12 0 0 UTC) ∧
    juneNoon64.SpotPriceDKK.IsFinite ∧
    (∃ p e, computePrice float64Ops (Date 2024 6 15 12 0 0 UTC) juneNoon64 = .ok p ∧
      p.IsFinite ∧ transformRecord float64Ops europeCopenhagen juneNoon64 = .ok e ∧
      ∃ (neg : Bool) (ip fp : List Char),
        e.Price.toList = (if neg then ['-'] else []) ++ ip ++ ['.'] ++ fp ∧
        ip ≠ [] ∧ (∀ c ∈ ip, isDigitChar c = true) ∧
        fp.length = 6 ∧ (∀ c ∈ fp, isDigitChar c = true) ∧
        (∀ c ∈ e.Price.toList, c ≠ 'e' ∧ c ≠ 'E') ∧
        |(if neg then -1 else 1) * ((decodeDigits ip : ℚ) + (decodeDigits fp : ℚ) / 1000000)
          - p.val| ≤ 1 / 2000000) ∧
    transformRecord float64Ops europeCopenhagen juneNoon64
      = .ok ⟨"2024-06-15T14:00:00+02:00", "1.909287"⟩ :=
  ⟨rfl, Float64.lit_isFinite _ (by decide!),
    price_string_is_fixed_point europeCopenhagen juneNoon64 (Date 2024 6 15 12 0 0 UTC) rfl
      (Float64.lit_isFinite _ (by decide!)),
    by decide!⟩

/-! ## Relations between prices -/

/-- C15: for two records with the same month and the same hour of the day and
finite spot prices `s1 <= s2`, the `float64` price of the first is at most that
of the second; in exact arithmetic on the same inputs the two prices differ by
exactly `1.25 * (s2 - s1) / 1000`. Nothing clamps a negative spot price. -/
theorem price_monotone_affine_in_spot (hour1 hour2 : HourlyPrice Float64) (d1 d2 : Time)
    (h1 : timeParse hour1.HourUTC = some d1) (h2 : timeParse hour2.HourUTC = some d2)
    (hm : d1.Month = d2.Month) (hh : d1.Hour = d2.Hour)
    (hf1 : hour1.SpotPriceDKK.IsFinite) (hf2 : hour2.SpotPriceDKK.IsFinite)
    (hs : hour1.SpotPriceDKK.val ≤ hour2.SpotPriceDKK.val) :
    (∃ p1 p2, computePrice float64Ops d1 hour1 = .ok p1 ∧
      computePrice float64Ops d2 hour2 = .ok p2 ∧ p1.IsFinite ∧ p2.IsFinite ∧
      p1.val ≤ p2.val) ∧
    (∃ q1 q2, computePrice exactOps d1 (exactRecord hour1) = .ok q1 ∧
      computePrice exactOps d2 (exactRecord hour2) = .ok q2 ∧ q1 ≤ q2 ∧
      q2 - q1 = 1.25 * (hour2.SpotPriceDKK.val - hour1.SpotPriceDKK.val) / 1000) := by
  refine ⟨?_, exact_price_affine (exactRecord hour1) (exactRecord hour2) d1 d2 h1 h2 hm hh hs⟩
  obtain ⟨t0, t1, t2, hT, b0, b1, b2⟩ := selectTariffs_float64_bounded d2.Month
  have hT1 : selectTariffs float64Ops d1.Month = [t0, t1, t2] := by rw [hm, hT]
  obtain ⟨p1, hp1, hb1, hv1⟩ := computePrice_float64 d1 hour1 hf1 t0 t1 t2 hT1 b0 b1 b2
  obtain ⟨p2, hp2, hb2, hv2⟩ := computePrice_float64 d2 hour2 hf2 t0 t1 t2 hT b0 b1 b2
  refine ⟨p1, p2, hp1, hp2, hb1.isFinite (by norm_num), hb2.isFinite (by norm_num), ?_⟩
  rw [hv1, hv2, hh]
  exact float64PriceVal_mono hs le_rfl

/-- Witness for C15: noon UTC of 16 December 2024 with the negative spot price
-1027.4 against noon UTC of 15 December 2024 with spot price 500.03. -/
theorem price_monotone_affine_in_spot_witness :
    timeParse decemberNoonNegative64.HourUTC = some (Date 2024 12 16 12 0 0 UTC) ∧
    timeParse decemberNoon64.HourUTC = some (Date 2024 12 15 12 0 0 UTC) ∧
    (Date 2024 12 16 12 0 0 UTC).Month = (Date 2024 12 15 12 0 0 UTC).Month ∧
    (Date 2024 12 16 12 0 0 UTC).Hour = (Date 2024 12 15 12 0 0 UTC).Hour ∧
    decemberNoonNegative64.SpotPriceDKK.IsFinite ∧ decemberNoon64.SpotPriceDKK.IsFinite ∧
    decemberNoonNegative64.SpotPriceDKK.val ≤ decemberNoon64.SpotPriceDKK.val ∧
    ((∃ p1 p2, computePrice float64Ops (Date 2024 12 16 12 0 0 UTC) decemberNoonNegative64
        = .ok p1 ∧
      computePrice float64Ops (Date 2024 12 15 12 0 0 UTC) decemberNoon64 = .ok p2 ∧
      p1.IsFinite ∧ p2.IsFinite ∧ p1.val ≤ p2.val) ∧
    (∃ q1 q2, computePrice exactOps (Date 2024 12 16 12 0 0 UTC)
        (exactRecord decemberNoonNegative64) = .ok q1 ∧
      computePrice exactOps (Date 2024 12 15 12 0 0 UTC) (exactRecord decemberNoon64)
        = .ok q2 ∧ q1 ≤ q2 ∧
      q2 - q1 = 1.25 * (decemberNoon64.SpotPriceDKK.val
        - decemberNoonNegative64.SpotPriceDKK.val) / 1000)) :=
  ⟨rfl, rfl, by decide, by decide, Float64.lit_isFinite _ (by decide!),
    Float64.lit_isFinite _ (by decide!), by decide!,
    price_monotone_affine_in_spot decemberNoonNegative64 decemberNoon64
      (Date 2024 12 16 12 0 0 UTC) (Date 2024 12 15 12 0 0 UTC) rfl rfl (by decide) (by decide)
      (Float64.lit_isFinite _ (by decide!)) (Float64.lit_isFinite _ (by decide!))
      (by decide!)⟩

end Claims

end Elpris

